import Mathlib

/-!
Verification of the search-orchestration core of the
`fundamental-analysis-system` repository: Reciprocal Rank Fusion (RRF)
merging (`src/storage/rrf_scorer.py`, `SearchClient._rrf_merge`), the
Elasticsearch filter builder (`src/storage/filter_builder.py`,
`SearchClient._build_filters`), the circuit breaker, the retry/backoff
wrapper and the mode-dispatching `SearchClient.search_tool`
(`src/storage/search_tool.py`).

Modelling choices: Python floats are modelled by `ℚ` (the RRF arithmetic is
exact reciprocal sums), wall-clock time is an explicit `ℚ` parameter threaded
through the circuit breaker's entry points, insertion-ordered Python dicts are
association lists, and the exception classes raised or caught by the code are
an explicit error enumeration.  All definitions are executable.
-/

set_option maxHeartbeats 1000000

/-- The `SearchResult` dataclass of `search_types.py` / `search_tool.py`.
The `metadata` mapping is modelled as an association list. -/
structure SearchResult where
  doc_id : String
  score : ℚ
  content : String
  metadata : List (String × String)
  source_index : String
deriving DecidableEq

/-- First-match association-list lookup, the behaviour of `d in m` /
`m[d]` on Python dicts restricted to the operations the code performs. -/
def alookup {β : Type} (d : String) : List (String × β) → Option β
  | [] => none
  | (key, v) :: rest => if key = d then some v else alookup d rest

/-- One `fused_scores[doc_id] += x` step on the insertion-ordered
`defaultdict(float)`: an existing key keeps its position and accumulates,
a missing key is appended at the end with default value `0`. -/
def fusedUpdate (m : List (String × ℚ)) (d : String) (x : ℚ) : List (String × ℚ) :=
  match m with
  | [] => [(d, x)]
  | (key, v) :: rest =>
    if key = d then (key, v + x) :: rest else (key, v) :: fusedUpdate rest d x

/-- Lookup of a fused score with the `defaultdict` default `0`. -/
def scoreOf (fused : List (String × ℚ)) (d : String) : ℚ :=
  (alookup d fused).getD 0

/-- The statement `if result.doc_id not in doc_map: doc_map[result.doc_id]
= result` of the merge loops: insert at the end only when the key is
absent, so the map keeps the first occurrence of each `doc_id`. -/
def dmInsert (dm : List (String × SearchResult)) (r : SearchResult) :
    List (String × SearchResult) :=
  if (alookup r.doc_id dm).isSome then dm else dm ++ [(r.doc_id, r)]

/-- The body of `for rank, result in enumerate(r_list)` in
`RRFScorer.merge` / `SearchClient._rrf_merge`: `rank` is the 0-based
enumeration index, the contribution is `1 / (k + rank + 1)`, and `doc_map`
gets the result only if its `doc_id` is not yet present. -/
def mergeListLoop (k : ℤ) :
    ℕ → List SearchResult → List (String × ℚ) × List (String × SearchResult) →
    List (String × ℚ) × List (String × SearchResult)
  | _, [], acc => acc
  | rank, r :: rest, (fs, dm) =>
    mergeListLoop k (rank + 1) rest
      (fusedUpdate fs r.doc_id (1 / ((k : ℚ) + (rank : ℚ) + 1)), dmInsert dm r)

/-- The outer `for r_list in result_lists` loop of the merge. -/
def mergeLoop (k : ℤ) :
    List (List SearchResult) → List (String × ℚ) × List (String × SearchResult) →
    List (String × ℚ) × List (String × SearchResult)
  | [], acc => acc
  | l :: ls, acc => mergeLoop k ls (mergeListLoop k 0 l acc)

/-- The merge body shared by `RRFScorer.merge` and
`SearchClient._rrf_merge` (the two sources are line-for-line duplicates):
validate `k`, accumulate fused scores and first-occurrence payloads, then
stably sort the score-map keys by descending fused score (Python's `sorted`
with `reverse=True` is a stable descending sort, modelled by `mergeSort`
with the reversed comparison) and rebuild the results with the fused score
written into the `score` field.  A raised `ValueError` is an
`Except.error`. -/
def rrf_merge (result_lists : List (List SearchResult)) (k : ℤ) :
    Except String (List SearchResult) :=
  if k ≤ 0 then Except.error "RRF constant k must be positive"
  else
    let acc := mergeLoop k result_lists ([], [])
    let fused := acc.1
    let doc_map := acc.2
    let sorted_doc_ids :=
      (fused.map Prod.fst).mergeSort (fun a b => decide (scoreOf fused b ≤ scoreOf fused a))
    Except.ok (sorted_doc_ids.map (fun d =>
      match alookup d doc_map with
      | some r => { r with score := scoreOf fused d }
      | none =>
        { doc_id := d, score := scoreOf fused d, content := "", metadata := [],
          source_index := "" }))

/-- The `RRFScorer` class: it only carries the validated default constant. -/
structure RRFScorer where
  default_k : ℤ

/-- The `RRFScorer.__init__` validation: a non-positive `default_k`
raises `ValueError`. -/
def RRFScorer.init (default_k : ℤ) : Except String RRFScorer :=
  if default_k ≤ 0 then Except.error "RRF constant k must be positive"
  else Except.ok ⟨default_k⟩

/-- The `RRFScorer.merge` method: `k_value = k if k is not None else
self.default_k`, then the shared merge body (which re-checks positivity,
exactly as the Python method does before its loops). -/
def RRFScorer.merge (self : RRFScorer) (result_lists : List (List SearchResult))
    (k : Option ℤ) : Except String (List SearchResult) :=
  rrf_merge result_lists (k.getD self.default_k)

/-- Rank-indexed RRF contribution of one input list to the fused score of
`d`, starting the 0-based enumeration at `rank`: every occurrence of `d`
at enumeration index `i` contributes `1 / (k + i + 1)`, the accumulation
performed by the code's inner loop. -/
def contribFrom (k : ℤ) (d : String) : ℕ → List SearchResult → ℚ
  | _, [] => 0
  | rank, r :: rest =>
    (if r.doc_id = d then 1 / ((k : ℚ) + (rank : ℚ) + 1) else 0) +
      contribFrom k d (rank + 1) rest

/-- Total fused score the merge code assigns to `d`: the sum over all
input lists of the list's rank-sum contribution. -/
def codeFusedScore (k : ℤ) (lists : List (List SearchResult)) (d : String) : ℚ :=
  (lists.map (contribFrom k d 0)).sum

/-- Fused score as the specification words it: over every list in which
`d` appears, `1 / (k + rank)` where `rank` is the 1-based rank of `d` in
that list (first item = rank 1), zero from lists where `d` is absent. -/
def specFusedScore (k : ℤ) (lists : List (List SearchResult)) (d : String) : ℚ :=
  (lists.map (fun lst =>
    let ids := lst.map SearchResult.doc_id
    if d ∈ ids then 1 / ((k : ℚ) + ((ids.indexOf d : ℕ) : ℚ) + 1) else 0)).sum

/-- Values accepted by the custom `filters` mapping of the filter builder:
the code only distinguishes list values (`isinstance(value, list)`) from
scalar values. -/
inductive FilterValue
  | str (s : String)
  | list (vs : List String)
deriving DecidableEq

/-- Elasticsearch filter clauses produced by
`SearchFilterBuilder.build` / `SearchClient._build_filters`:
`{"term": {field: value}}`, `{"terms": {field: [values]}}` and
`{"range": {"date": {gte?, lte?}}}` (the range clause is always on the
`date` field; `gte` and `lte` are present exactly when set). -/
inductive FilterClause
  | term (field : String) (value : FilterValue)
  | terms (field : String) (values : List String)
  | range_date (gte : Option String) (lte : Option String)
deriving DecidableEq

/-- Python truthiness of an `Optional[str]`: `None` and the empty string
are falsy, exactly the test `if ticker:` performs. -/
def truthyStr : Option String → Bool
  | none => false
  | some s => decide (s ≠ "")

/-- The `SearchFilterBuilder` class carries no state. -/
structure SearchFilterBuilder where

/-- The `build` method of `filter_builder.py` (and the identical
`SearchClient._build_filters`): a ticker `term` clause when the ticker is
truthy, then one `range` clause on `date` when either date is truthy
(`gte` from a truthy `start_date`, `lte` from a truthy `end_date`), then
one clause per custom filter entry in mapping-iteration order, a `terms`
clause for list values and a `term` clause otherwise. -/
def SearchFilterBuilder.build (_self : SearchFilterBuilder)
    (ticker start_date end_date : Option String)
    (filters : Option (List (String × FilterValue))) : List FilterClause :=
  let es_filters : List FilterClause := []
  let es_filters :=
    if truthyStr ticker then
      es_filters ++ [FilterClause.term "ticker" (FilterValue.str (ticker.getD ""))]
    else es_filters
  let es_filters :=
    if truthyStr start_date || truthyStr end_date then
      es_filters ++ [FilterClause.range_date
        (if truthyStr start_date then start_date else none)
        (if truthyStr end_date then end_date else none)]
    else es_filters
  match filters with
  | none => es_filters
  | some fs =>
    es_filters ++ fs.map (fun p =>
      match p.2 with
      | FilterValue.list vs => FilterClause.terms p.1 vs
      | v => FilterClause.term p.1 v)

/-- The breaker's `state` string: `"closed"`, `"open"` or `"half-open"`
(`opened` stands for `"open"`, which is a reserved word here). -/
inductive BreakerState
  | closed
  | opened
  | half_open
deriving DecidableEq

/-- The `CircuitBreaker` class state: constructor parameters plus the three
mutable fields.  Timestamps (`time.time()` values) are rationals. -/
structure CircuitBreaker where
  failure_threshold : ℕ
  timeout : ℚ
  failures : ℕ
  last_failure_time : Option ℚ
  state : BreakerState
deriving DecidableEq

/-- The `CircuitBreaker.__init__` defaults: `failures = 0`,
`last_failure_time = None`, `state = "closed"`. -/
def CircuitBreaker.init (failure_threshold : ℕ) (timeout : ℚ) : CircuitBreaker :=
  { failure_threshold := failure_threshold, timeout := timeout, failures := 0,
    last_failure_time := none, state := BreakerState.closed }

/-- The `record_failure` method at wall-clock time `now`: increment
`failures`, stamp `last_failure_time`, and open the breaker once
`failures >= failure_threshold`. -/
def CircuitBreaker.record_failure (cb : CircuitBreaker) (now : ℚ) : CircuitBreaker :=
  let cb' := { cb with failures := cb.failures + 1, last_failure_time := some now }
  if cb'.failure_threshold ≤ cb'.failures then { cb' with state := BreakerState.opened }
  else cb'

/-- The `record_success` method: unconditionally reset `failures` to `0`
and `state` to `"closed"`. -/
def CircuitBreaker.record_success (cb : CircuitBreaker) : CircuitBreaker :=
  { cb with failures := 0, state := BreakerState.closed }

/-- The `can_execute` method at wall-clock time `now`.  It both reports
whether a call may proceed and performs the lazy `open → half-open`
transition, so it returns the updated breaker together with the boolean. -/
def CircuitBreaker.can_execute (cb : CircuitBreaker) (now : ℚ) : CircuitBreaker × Bool :=
  if cb.state = BreakerState.closed then (cb, true)
  else if cb.state = BreakerState.opened then
    match cb.last_failure_time with
    | some t =>
      if cb.timeout ≤ now - t then ({ cb with state := BreakerState.half_open }, true)
      else (cb, false)
    | none => (cb, false)
  else (cb, decide (cb.state = BreakerState.half_open))

/-- Exception classes the search code raises or catches:
`elasticsearch.ConnectionError`, `ConnectionTimeout`, other
`TransportError`s, `ApiError` with its HTTP status code,
`NotImplementedError` (the unconfigured real embedding backend),
`RuntimeError` (the breaker-open fail-fast and the retry wrapper's
fallback) and `ValueError` standing for any remaining exception type. -/
inductive ESError
  | connection_error
  | connection_timeout
  | transport_error
  | api_error (status_code : ℕ)
  | not_implemented_error
  | runtime_error
  | value_error
deriving DecidableEq

/-- The module constant `RATE_LIMIT_STATUS_CODE = 429`. -/
def RATE_LIMIT_STATUS_CODE : ℕ := 429

/-- The `for attempt in range(max_retries + 1)` loop of
`retry_with_backoff`, with the backoff sleeps erased (they do not affect
the state or result).  `fuel` is the number of loop iterations left,
`attempt` the current 0-based attempt index, and `last` the
`last_exception` variable.  Connection and timeout errors always fall
through to the next iteration (re-raised as `last_exception` after the
loop when attempts are exhausted); an `ApiError` is retried only when its
status is 429 and `attempt < max_retries`, otherwise re-raised; every
other exception is re-raised at once.  The wrapped operation `op` threads
an arbitrary state `σ`. -/
def retryLoop {σ α : Type} (max_retries : ℕ) (op : σ → σ × Except ESError α) :
    ℕ → ℕ → σ → Option ESError → σ × Except ESError α
  | 0, _, s, last => (s, Except.error (last.getD ESError.runtime_error))
  | fuel + 1, attempt, s, last =>
    match op s with
    | (s1, Except.ok v) => (s1, Except.ok v)
    | (s1, Except.error e) =>
      match e with
      | ESError.connection_error =>
        retryLoop max_retries op fuel (attempt + 1) s1 (some e)
      | ESError.connection_timeout =>
        retryLoop max_retries op fuel (attempt + 1) s1 (some e)
      | ESError.api_error code =>
        if code = RATE_LIMIT_STATUS_CODE ∧ attempt < max_retries then
          retryLoop max_retries op fuel (attempt + 1) s1 (some e)
        else (s1, Except.error e)
      | _ => (s1, Except.error e)

/-- The `retry_with_backoff(max_retries, ...)` decorator applied to an
operation: run the loop with `max_retries + 1` iterations starting at
attempt 0 with `last_exception = None`. -/
def retry_with_backoff {σ α : Type} (max_retries : ℕ)
    (op : σ → σ × Except ESError α) (s : σ) : σ × Except ESError α :=
  retryLoop max_retries op (max_retries + 1) 0 s none

/-- Whether `retry_with_backoff` classifies an error as retryable:
connection/timeout errors and rate-limit (429) API errors. -/
def retryableError (e : ESError) : Prop :=
  e = ESError.connection_error ∨ e = ESError.connection_timeout ∨
    e = ESError.api_error RATE_LIMIT_STATUS_CODE

instance (e : ESError) : Decidable (retryableError e) := by
  unfold retryableError; infer_instance

/-- The three `search_type` values of `search_tool`. -/
inductive SearchType
  | keyword
  | semantic
  | hybrid
deriving DecidableEq

/-- Mutable state visible to one `search_tool` call: the client's circuit
breaker, the number of Elasticsearch search requests issued so far, and
the number of times the (undecorated) body has been entered. -/
structure SysState where
  breaker : CircuitBreaker
  es_calls : ℕ
  body_calls : ℕ
deriving DecidableEq

/-- Breaker bookkeeping of the three `except` clauses at the end of
`search_tool`: connection-class errors (`ESConnectionError`,
`ConnectionTimeout`, `TransportError`) record a breaker failure, `ApiError`
does not, and the catch-all `except Exception` (which receives
`NotImplementedError`, `ValueError`, ...) records a breaker failure. -/
def recordBreakerFor (e : ESError) (cb : CircuitBreaker) (now : ℚ) : CircuitBreaker :=
  match e with
  | ESError.connection_error => cb.record_failure now
  | ESError.connection_timeout => cb.record_failure now
  | ESError.transport_error => cb.record_failure now
  | ESError.api_error _ => cb
  | _ => cb.record_failure now

/-- One Elasticsearch request against the oracle `es` (the response to the
`n`-th request issued by this client), shared by the keyword and semantic
branches: parse-and-return on success (`record_success`), classify and
re-raise on failure. -/
def esRequestStep (es : ℕ → Except ESError (List SearchResult)) (now : ℚ)
    (cb : CircuitBreaker) (s : SysState) :
    SysState × Except ESError (List SearchResult) :=
  match es s.es_calls with
  | Except.ok hits =>
    ({ s with es_calls := s.es_calls + 1, breaker := cb.record_success }, Except.ok hits)
  | Except.error e =>
    ({ s with es_calls := s.es_calls + 1, breaker := recordBreakerFor e cb now },
     Except.error e)

/-- The undecorated body of `SearchClient.search_tool`: the breaker gate
(raising `RuntimeError` before the `try` block, so without breaker
bookkeeping), embedding generation for semantic/hybrid (the real backend
raises `NotImplementedError` inside the `try` block, so the catch-all
clause records a breaker failure), one request for keyword/semantic, two
gathered requests for hybrid followed by the RRF merge (a `ValueError`
from the merge would hit the catch-all clause), and `record_success` on
the success paths.  For the gathered pair the first list's error is
propagated when both fail (the code's `asyncio.gather` propagates
whichever exception occurs first in time; the claims checked here do not
depend on that choice). -/
def search_tool_body (mock : Bool) (stype : SearchType)
    (es : ℕ → Except ESError (List SearchResult)) (rrf_k : ℤ) (now : ℚ)
    (s : SysState) : SysState × Except ESError (List SearchResult) :=
  let s := { s with body_calls := s.body_calls + 1 }
  let gate := s.breaker.can_execute now
  let cb := gate.1
  let s := { s with breaker := cb }
  if !gate.2 then (s, Except.error ESError.runtime_error)
  else
    match stype with
    | SearchType.keyword => esRequestStep es now cb s
    | SearchType.semantic =>
      if mock then esRequestStep es now cb s
      else
        ({ s with breaker := recordBreakerFor ESError.not_implemented_error cb now },
         Except.error ESError.not_implemented_error)
    | SearchType.hybrid =>
      if mock then
        let r1 := es s.es_calls
        let r2 := es (s.es_calls + 1)
        let s := { s with es_calls := s.es_calls + 2 }
        match r1 with
        | Except.error e =>
          ({ s with breaker := recordBreakerFor e cb now }, Except.error e)
        | Except.ok h1 =>
          match r2 with
          | Except.error e =>
            ({ s with breaker := recordBreakerFor e cb now }, Except.error e)
          | Except.ok h2 =>
            match rrf_merge [h1, h2] rrf_k with
            | Except.error _ =>
              ({ s with breaker := recordBreakerFor ESError.value_error cb now },
               Except.error ESError.value_error)
            | Except.ok merged =>
              ({ s with breaker := cb.record_success }, Except.ok merged)
      else
        ({ s with breaker := recordBreakerFor ESError.not_implemented_error cb now },
         Except.error ESError.not_implemented_error)

/-- `SearchClient.search_tool` as deployed: the body wrapped by
`@retry_with_backoff(max_retries=3, ...)` (kept general in
`max_retries`). -/
def SearchClient.search_tool (max_retries : ℕ) (mock : Bool) (stype : SearchType)
    (es : ℕ → Except ESError (List SearchResult)) (rrf_k : ℤ) (now : ℚ)
    (s : SysState) : SysState × Except ESError (List SearchResult) :=
  retry_with_backoff max_retries (search_tool_body mock stype es rrf_k now) s

/-- First-occurrence key accumulation: process doc_ids left to right,
appending each key not yet seen.  This is the key order of both Python
dicts built by the merge loops. -/
def foldKeys : List String → List String → List String
  | ks, [] => ks
  | ks, d :: ds => foldKeys (if d ∈ ks then ks else ks ++ [d]) ds

/-- The fused-score dictionary after both merge loops have run. -/
def mergeFused (k : ℤ) (lists : List (List SearchResult)) : List (String × ℚ) :=
  (mergeLoop k lists ([], [])).1

/-- The first-occurrence document map after both merge loops have run. -/
def mergeDocMap (k : ℤ) (lists : List (List SearchResult)) :
    List (String × SearchResult) :=
  (mergeLoop k lists ([], [])).2

/-- The `sorted(fused_scores.keys(), ..., reverse=True)` stage of the
merge: the score-map keys, stably sorted by descending fused score. -/
def mergeSortedIds (k : ℤ) (lists : List (List SearchResult)) : List String :=
  ((mergeFused k lists).map Prod.fst).mergeSort
    (fun a b => decide (scoreOf (mergeFused k lists) b ≤ scoreOf (mergeFused k lists) a))

/-- The final rebuild step of the merge: take the first-occurrence payload
for `d` and overwrite its `score` with the fused score. -/
def mergeRebuild (k : ℤ) (lists : List (List SearchResult)) (d : String) :
    SearchResult :=
  match alookup d (mergeDocMap k lists) with
  | some r => { r with score := scoreOf (mergeFused k lists) d }
  | none =>
    { doc_id := d, score := scoreOf (mergeFused k lists) d, content := "",
      metadata := [], source_index := "" }

/-- Invocation-counting harness for the retry wrapper: the state is the
number of calls made so far, and `beh i` is the outcome of the
`(i+1)`-st invocation of the wrapped function. -/
def countingOp {α : Type} (beh : ℕ → Except ESError α) (n : ℕ) :
    ℕ × Except ESError α :=
  (n + 1, beh n)

/-- Repeated `record_failure` calls at the given sequence of times. -/
def CircuitBreaker.record_failures (cb : CircuitBreaker) (ts : List ℚ) :
    CircuitBreaker :=
  ts.foldl CircuitBreaker.record_failure cb

/-- One call to a `CircuitBreaker` entry point, with its wall-clock time. -/
inductive BreakerEvent
  | fail (t : ℚ)
  | succ (t : ℚ)
  | exec (t : ℚ)

/-- Wall-clock time at which the event happens. -/
def BreakerEvent.time : BreakerEvent → ℚ
  | BreakerEvent.fail t => t
  | BreakerEvent.succ t => t
  | BreakerEvent.exec t => t

/-- Effect of the event on the breaker (`record_failure`,
`record_success`, or the state transition performed by `can_execute`). -/
def BreakerEvent.apply (cb : CircuitBreaker) : BreakerEvent → CircuitBreaker
  | BreakerEvent.fail t => cb.record_failure t
  | BreakerEvent.succ _ => cb.record_success
  | BreakerEvent.exec t => (cb.can_execute t).1

/-- Breaker state reached after a sequence of timed calls. -/
def run_breaker (cb : CircuitBreaker) (evs : List BreakerEvent) : CircuitBreaker :=
  evs.foldl BreakerEvent.apply cb

/-- Time of the last event, or `t0` when there is none. -/
def lastTimeFrom (t0 : ℚ) (evs : List BreakerEvent) : ℚ :=
  evs.foldl (fun _ e => e.time) t0

/-- State invariant of the breaker at wall-clock time `now`: an open
breaker has accumulated at least `failure_threshold` failures and its
timeout has not yet elapsed since the last recorded failure; a half-open
breaker also carries at least `failure_threshold` failures (the counter is
not reset on the `open → half-open` transition); a closed breaker is
strictly below the threshold. -/
def BreakerInv (cb : CircuitBreaker) (now : ℚ) : Prop :=
  (cb.state = BreakerState.opened →
    cb.failure_threshold ≤ cb.failures ∧
    ∃ t, cb.last_failure_time = some t ∧ t ≤ now ∧ now - t < cb.timeout) ∧
  (cb.state = BreakerState.half_open → cb.failure_threshold ≤ cb.failures) ∧
  (cb.state = BreakerState.closed → cb.failures < cb.failure_threshold)

/-- The filter-clause list as the specification words it: one ticker
`term` clause if `ticker` is given, then exactly one `range` clause on
`date` with `gte` set iff `start_date` is given and `lte` set iff
`end_date` is given (if either is given), then one clause per custom
filter entry in mapping-iteration order, a `terms` clause for a list value
and a `term` clause otherwise. -/
def specBuildFilters (ticker start_date end_date : Option String)
    (filters : Option (List (String × FilterValue))) : List FilterClause :=
  (match ticker with
   | some t => [FilterClause.term "ticker" (FilterValue.str t)]
   | none => []) ++
  (if start_date.isSome || end_date.isSome then
    [FilterClause.range_date start_date end_date]
   else []) ++
  (match filters with
   | none => []
   | some fs =>
     fs.map (fun p =>
       match p.2 with
       | FilterValue.list vs => FilterClause.terms p.1 vs
       | v => FilterClause.term p.1 v))

/-- A concrete result, used when instantiating theorems on examples. -/
def exR (d : String) (sc : ℚ) (c idx : String) : SearchResult :=
  { doc_id := d, score := sc, content := c, metadata := [], source_index := idx }

/-- Concrete merge input: two lists sharing the document `d2`. -/
def exListsA : List (List SearchResult) :=
  [[exR "d1" 10 "c1" "e", exR "d2" 9 "c2" "e"], [exR "d2" 1 "c3" "f"]]

/-- Concrete merge input: `x` first in list 0 and again in list 1. -/
def exListsB : List (List SearchResult) :=
  [[exR "x" 10 "cx" "e"], [exR "y" 5 "cy" "f", exR "x" 1 "cx2" "f"]]

/-- Concrete merge input with an exact fused-score tie: `u` and `v` are
both at rank 1 of their own list and appear nowhere else. -/
def exListsC : List (List SearchResult) :=
  [[exR "u" 10 "cu" "e"], [exR "v" 5 "cv" "f"]]

/-- Concrete behaviour: one connection error, then success. -/
def exBeh1 : ℕ → Except ESError ℕ :=
  fun i => if i = 0 then Except.error ESError.connection_error else Except.ok 7

/-- Concrete behaviour: every attempt times out. -/
def exBeh2 : ℕ → Except ESError ℕ :=
  fun _ => Except.error ESError.connection_timeout

/-- Concrete behaviour: a non-retryable 400 API error. -/
def exBeh3 : ℕ → Except ESError ℕ :=
  fun _ => Except.error (ESError.api_error 400)

/-- An index client whose every request fails with a connection error. -/
def esConnFail : ℕ → Except ESError (List SearchResult) :=
  fun _ => Except.error ESError.connection_error

/-- Fresh client state with the deployed defaults: breaker threshold 5,
timeout 60 seconds, no requests issued yet. -/
def exSysState : SysState :=
  { breaker := CircuitBreaker.init 5 60, es_calls := 0, body_calls := 0 }

/-! ### Association-list lemmas -/

theorem alookup_nil {β : Type} (d : String) : alookup (β := β) d [] = none := rfl

theorem alookup_cons {β : Type} (d key : String) (v : β) (rest : List (String × β)) :
    alookup d ((key, v) :: rest) = if key = d then some v else alookup d rest := rfl

theorem alookup_append_some {β : Type} {d : String} {m1 : List (String × β)}
    {v : β} (m2 : List (String × β)) (h : alookup d m1 = some v) :
    alookup d (m1 ++ m2) = some v := by
  induction m1 with
  | nil => simp [alookup] at h
  | cons p rest ih =>
    obtain ⟨key, w⟩ := p
    by_cases hk : key = d
    · simpa [alookup, hk] using h
    · rw [List.cons_append, alookup_cons, if_neg hk]
      rw [alookup_cons, if_neg hk] at h
      exact ih h

theorem alookup_append_none {β : Type} {d : String} {m1 : List (String × β)}
    (m2 : List (String × β)) (h : alookup d m1 = none) :
    alookup d (m1 ++ m2) = alookup d m2 := by
  induction m1 with
  | nil => simp
  | cons p rest ih =>
    obtain ⟨key, w⟩ := p
    by_cases hk : key = d
    · simp [alookup, hk] at h
    · rw [alookup_cons, if_neg hk] at h
      rw [List.cons_append, alookup_cons, if_neg hk]
      exact ih h

theorem alookup_isSome_iff {β : Type} (d : String) (m : List (String × β)) :
    (alookup d m).isSome = true ↔ d ∈ m.map Prod.fst := by
  induction m with
  | nil => simp [alookup]
  | cons p rest ih =>
    obtain ⟨key, w⟩ := p
    by_cases hk : key = d
    · subst hk; simp [alookup_cons]
    · rw [alookup_cons, if_neg hk]
      simp only [List.map_cons, List.mem_cons]
      rw [ih]
      constructor
      · exact fun h => Or.inr h
      · rintro (h | h)
        · exact absurd h.symm hk
        · exact h

theorem alookup_eq_none_iff {β : Type} (d : String) (m : List (String × β)) :
    alookup d m = none ↔ d ∉ m.map Prod.fst := by
  rw [← alookup_isSome_iff]
  cases alookup d m <;> simp

theorem alookup_eq_some_mem {β : Type} {d : String} {m : List (String × β)} {v : β}
    (h : alookup d m = some v) : (d, v) ∈ m := by
  induction m with
  | nil => simp [alookup] at h
  | cons p rest ih =>
    obtain ⟨key, w⟩ := p
    by_cases hk : key = d
    · rw [alookup_cons, if_pos hk] at h
      obtain rfl := hk
      obtain rfl : w = v := by injection h
      exact List.mem_cons_self _ _
    · rw [alookup_cons, if_neg hk] at h
      exact List.mem_cons_of_mem _ (ih h)

/-! ### Lemmas about the fused-score map update -/

theorem scoreOf_fusedUpdate (fs : List (String × ℚ)) (d d' : String) (x : ℚ) :
    scoreOf (fusedUpdate fs d x) d' = scoreOf fs d' + if d' = d then x else 0 := by
  induction fs with
  | nil =>
    by_cases h : d' = d
    · subst h; simp [fusedUpdate, scoreOf, alookup_cons, alookup_nil]
    · have h2 : ¬ d = d' := fun hh => h hh.symm
      simp [fusedUpdate, scoreOf, alookup_cons, alookup_nil, h, h2]
  | cons p rest ih =>
    obtain ⟨key, v⟩ := p
    by_cases hk : key = d
    · subst hk
      by_cases h' : key = d'
      · subst h'
        simp [fusedUpdate, scoreOf, alookup_cons]
      · have h2 : ¬ d' = key := fun hh => h' hh.symm
        simp [fusedUpdate, scoreOf, alookup_cons, h', h2]
    · rw [show fusedUpdate ((key, v) :: rest) d x = (key, v) :: fusedUpdate rest d x by
        simp [fusedUpdate, hk]]
      by_cases h' : key = d'
      · have h2 : ¬ d' = d := fun hh => hk (h'.trans hh)
        simp [scoreOf, alookup_cons, h', h2]
      · simp only [scoreOf, alookup_cons, if_neg h']
        exact ih

theorem fusedUpdate_keys (fs : List (String × ℚ)) (d : String) (x : ℚ) :
    (fusedUpdate fs d x).map Prod.fst =
      if d ∈ fs.map Prod.fst then fs.map Prod.fst else fs.map Prod.fst ++ [d] := by
  induction fs with
  | nil => simp [fusedUpdate]
  | cons p rest ih =>
    obtain ⟨key, v⟩ := p
    by_cases hk : key = d
    · subst hk; simp [fusedUpdate]
    · rw [show fusedUpdate ((key, v) :: rest) d x = (key, v) :: fusedUpdate rest d x by
        simp [fusedUpdate, hk]]
      have hne : ¬ d = key := fun h => hk h.symm
      simp only [List.map_cons, List.mem_cons, hne, false_or]
      by_cases hd : d ∈ rest.map Prod.fst
      · simp [hd, ih]
      · simp [hd, ih]

/-! ### Lemmas about the first-occurrence document map -/

theorem dmInsert_keys (dm : List (String × SearchResult)) (r : SearchResult) :
    (dmInsert dm r).map Prod.fst =
      if r.doc_id ∈ dm.map Prod.fst then dm.map Prod.fst
      else dm.map Prod.fst ++ [r.doc_id] := by
  by_cases h : r.doc_id ∈ dm.map Prod.fst
  · simp [dmInsert, (alookup_isSome_iff _ _).2 h, h]
  · have : (alookup r.doc_id dm).isSome = false := by
      cases heq : alookup r.doc_id dm with
      | none => rfl
      | some v =>
        exact absurd ((alookup_isSome_iff _ _).1 (by simp [heq])) h
    simp [dmInsert, this, h]

theorem alookup_dmInsert (dm : List (String × SearchResult)) (r : SearchResult)
    (d : String) :
    alookup d (dmInsert dm r) =
      match alookup d dm with
      | some v => some v
      | none => if r.doc_id = d then some r else none := by
  unfold dmInsert
  cases hdm : alookup d dm with
  | some v =>
    by_cases h : (alookup r.doc_id dm).isSome = true
    · simp [h, hdm]
    · simp only [Bool.not_eq_true] at h
      simp [h, alookup_append_some _ hdm]
  | none =>
    by_cases h : (alookup r.doc_id dm).isSome = true
    · simp only [h, if_true]
      by_cases hrd : r.doc_id = d
      · subst hrd
        rw [hdm] at h
        simp at h
      · simp [hdm, hrd]
    · simp only [Bool.not_eq_true] at h
      simp only [h, Bool.false_eq_true, if_false]
      rw [alookup_append_none _ hdm]
      by_cases hrd : r.doc_id = d
      · subst hrd; simp [alookup_cons]
      · simp [alookup_cons, alookup_nil, hrd]

theorem dmInsert_wf {dm : List (String × SearchResult)} {r : SearchResult}
    (h : ∀ p ∈ dm, (p.2).doc_id = p.1) :
    ∀ p ∈ dmInsert dm r, (p.2).doc_id = p.1 := by
  intro p hp
  unfold dmInsert at hp
  split at hp
  · exact h p hp
  · rcases List.mem_append.1 hp with hmem | hmem
    · exact h p hmem
    · simp only [List.mem_singleton] at hmem
      subst hmem; rfl

/-! ### Key-insertion order of the merge dictionaries -/

theorem foldKeys_append (ks : List String) (ids1 ids2 : List String) :
    foldKeys (foldKeys ks ids1) ids2 = foldKeys ks (ids1 ++ ids2) := by
  induction ids1 generalizing ks with
  | nil => simp [foldKeys]
  | cons d ds ih => simp [foldKeys, ih]

theorem mem_foldKeys (ks ids : List String) (d : String) :
    d ∈ foldKeys ks ids ↔ d ∈ ks ∨ d ∈ ids := by
  induction ids generalizing ks with
  | nil => simp [foldKeys]
  | cons e es ih =>
    rw [foldKeys, ih]
    by_cases he : e ∈ ks
    · simp only [he, if_true, List.mem_cons]
      constructor
      · rintro (h | h)
        · exact Or.inl h
        · exact Or.inr (Or.inr h)
      · rintro (h | h | h)
        · exact Or.inl h
        · exact Or.inl (h ▸ he)
        · exact Or.inr h
    · simp only [he, if_false, List.mem_append, List.mem_singleton, List.mem_cons]
      tauto

theorem nodup_foldKeys (ks ids : List String) (h : ks.Nodup) :
    (foldKeys ks ids).Nodup := by
  induction ids generalizing ks with
  | nil => exact h
  | cons e es ih =>
    rw [foldKeys]
    by_cases he : e ∈ ks
    · simpa [he] using ih ks h
    · have : (ks ++ [e]).Nodup := by
        simp [List.nodup_append, h, he]
      simpa [he] using ih _ this

theorem sublist_foldKeys (ks ids : List String) (l : List String)
    (h : l.Sublist ks) : l.Sublist (foldKeys ks ids) := by
  induction ids generalizing ks with
  | nil => exact h
  | cons e es ih =>
    rw [foldKeys]
    by_cases he : e ∈ ks
    · simpa [he] using ih ks h
    · simp only [he, if_false]
      exact ih _ (h.trans (List.sublist_append_left ks [e]))

theorem pair_sublist_foldKeys_of_mem (ids : List String) (ks : List String)
    (a b : String) (ha : a ∈ ks) (hb : b ∉ ks) (hbids : b ∈ ids) :
    [a, b].Sublist (foldKeys ks ids) := by
  induction ids generalizing ks with
  | nil => cases hbids
  | cons e es ih =>
    rw [foldKeys]
    by_cases he : e ∈ ks
    · simp only [he, if_true]
      have hbe : b ≠ e := fun h => hb (h ▸ he)
      have : b ∈ es := by
        rcases List.mem_cons.1 hbids with h | h
        · exact absurd h hbe
        · exact h
      exact ih ks ha hb this
    · simp only [he, if_false]
      by_cases hbe : b = e
      · subst hbe
        have hsub : [a, b].Sublist (ks ++ [b]) := by
          have h1 : [a].Sublist ks := (List.singleton_sublist).2 ha
          simpa using h1.append (List.Sublist.refl [b])
        exact sublist_foldKeys _ es _ hsub
      · have hb' : b ∉ ks ++ [e] := by
          simp only [List.mem_append, List.mem_singleton]
          rintro (h | h)
          · exact hb h
          · exact hbe h
        have hbids' : b ∈ es := by
          rcases List.mem_cons.1 hbids with h | h
          · exact absurd h hbe
          · exact h
        exact ih _ (List.mem_append_left _ ha) hb' hbids'

theorem pair_sublist_foldKeys (ids : List String) (ks : List String)
    (a b : String) (ha : a ∉ ks) (hb : b ∉ ks) (hbids : b ∈ ids)
    (horder : ids.indexOf a < ids.indexOf b) :
    [a, b].Sublist (foldKeys ks ids) := by
  induction ids generalizing ks with
  | nil => cases hbids
  | cons e es ih =>
    have hab : ¬ a = b := by
      rintro rfl
      exact lt_irrefl _ horder
    by_cases hae : a = e
    · have hbe : ¬ b = e := fun h => hab (hae.trans h.symm)
      have hbes : b ∈ es := by
        rcases List.mem_cons.1 hbids with h | h
        · exact absurd h hbe
        · exact h
      have henk : e ∉ ks := fun h => ha (by rw [hae]; exact h)
      rw [foldKeys, if_neg henk]
      refine pair_sublist_foldKeys_of_mem es (ks ++ [e]) a b ?_ ?_ hbes
      · rw [hae]
        exact List.mem_append_right _ (List.mem_singleton.2 rfl)
      · simp only [List.mem_append, List.mem_singleton]
        rintro (h | h)
        · exact hb h
        · exact hbe h
    · by_cases hbeq : b = e
      · exfalso
        rw [hbeq, List.indexOf_cons_self] at horder
        omega
      · have ha' : List.indexOf a (e :: es) = (List.indexOf a es) + 1 :=
          List.indexOf_cons_ne _ (fun h => hae h.symm)
        have hb'' : List.indexOf b (e :: es) = (List.indexOf b es) + 1 :=
          List.indexOf_cons_ne _ (fun h => hbeq h.symm)
        rw [ha', hb''] at horder
        have horder' : es.indexOf a < es.indexOf b := by omega
        have hbes : b ∈ es := by
          rcases List.mem_cons.1 hbids with h | h
          · exact absurd h hbeq
          · exact h
        rw [foldKeys]
        by_cases he : e ∈ ks
        · simp only [he, if_true]
          exact ih ks ha hb hbes horder'
        · simp only [he, if_false]
          have hasplit : a ∉ ks ++ [e] := by
            simp only [List.mem_append, List.mem_singleton]
            rintro (h | h)
            · exact ha h
            · exact hae h
          have hbsplit : b ∉ ks ++ [e] := by
            simp only [List.mem_append, List.mem_singleton]
            rintro (h | h)
            · exact hb h
            · exact hbeq h
          exact ih _ hasplit hbsplit hbes horder'

/-! ### Characterisation of the merge loops -/

theorem mergeListLoop_fst_score (k : ℤ) (lst : List SearchResult) (d : String) :
    ∀ (rank : ℕ) (fs : List (String × ℚ)) (dm : List (String × SearchResult)),
    scoreOf (mergeListLoop k rank lst (fs, dm)).1 d =
      scoreOf fs d + contribFrom k d rank lst := by
  induction lst with
  | nil => intro rank fs dm; simp [mergeListLoop, contribFrom]
  | cons r rest ih =>
    intro rank fs dm
    rw [mergeListLoop, ih, contribFrom, scoreOf_fusedUpdate]
    by_cases h : r.doc_id = d
    · rw [if_pos h, if_pos h.symm]
      ring
    · rw [if_neg h, if_neg (fun hh => h hh.symm)]
      ring

theorem mergeListLoop_fst_keys (k : ℤ) (lst : List SearchResult) :
    ∀ (rank : ℕ) (fs : List (String × ℚ)) (dm : List (String × SearchResult)),
    (mergeListLoop k rank lst (fs, dm)).1.map Prod.fst =
      foldKeys (fs.map Prod.fst) (lst.map SearchResult.doc_id) := by
  induction lst with
  | nil => intro rank fs dm; simp [mergeListLoop, foldKeys]
  | cons r rest ih =>
    intro rank fs dm
    rw [mergeListLoop, ih, List.map_cons, foldKeys, fusedUpdate_keys]

theorem mergeListLoop_snd_keys (k : ℤ) (lst : List SearchResult) :
    ∀ (rank : ℕ) (fs : List (String × ℚ)) (dm : List (String × SearchResult)),
    (mergeListLoop k rank lst (fs, dm)).2.map Prod.fst =
      foldKeys (dm.map Prod.fst) (lst.map SearchResult.doc_id) := by
  induction lst with
  | nil => intro rank fs dm; simp [mergeListLoop, foldKeys]
  | cons r rest ih =>
    intro rank fs dm
    rw [mergeListLoop, ih, List.map_cons, foldKeys, dmInsert_keys]

theorem mergeListLoop_snd_alookup (k : ℤ) (lst : List SearchResult) (d : String) :
    ∀ (rank : ℕ) (fs : List (String × ℚ)) (dm : List (String × SearchResult)),
    alookup d (mergeListLoop k rank lst (fs, dm)).2 =
      match alookup d dm with
      | some v => some v
      | none => lst.find? (fun r => decide (r.doc_id = d)) := by
  induction lst with
  | nil =>
    intro rank fs dm
    rw [mergeListLoop]
    cases alookup d dm <;> simp [List.find?]
  | cons r rest ih =>
    intro rank fs dm
    rw [mergeListLoop, ih, alookup_dmInsert]
    cases hdm : alookup d dm with
    | some v => simp
    | none =>
      by_cases hrd : r.doc_id = d
      · simp [hrd, List.find?_cons_of_pos]
      · simp only [hrd, if_false]
        rw [List.find?_cons_of_neg]
        simp [hrd]

theorem mergeListLoop_snd_wf (k : ℤ) (lst : List SearchResult) :
    ∀ (rank : ℕ) (fs : List (String × ℚ)) (dm : List (String × SearchResult)),
    (∀ p ∈ dm, (p.2).doc_id = p.1) →
    ∀ p ∈ (mergeListLoop k rank lst (fs, dm)).2, (p.2).doc_id = p.1 := by
  induction lst with
  | nil => intro rank fs dm h; exact h
  | cons r rest ih =>
    intro rank fs dm h
    rw [mergeListLoop]
    exact ih _ _ _ (dmInsert_wf h)

theorem mergeLoop_fst_score (k : ℤ) (lists : List (List SearchResult)) (d : String) :
    ∀ (fs : List (String × ℚ)) (dm : List (String × SearchResult)),
    scoreOf (mergeLoop k lists (fs, dm)).1 d =
      scoreOf fs d + (lists.map (contribFrom k d 0)).sum := by
  induction lists with
  | nil => intro fs dm; simp [mergeLoop]
  | cons l ls ih =>
    intro fs dm
    rw [mergeLoop]
    rw [show mergeListLoop k 0 l (fs, dm) =
      ((mergeListLoop k 0 l (fs, dm)).1, (mergeListLoop k 0 l (fs, dm)).2) from rfl]
    rw [ih, mergeListLoop_fst_score, List.map_cons, List.sum_cons]
    ring

theorem mergeLoop_fst_keys (k : ℤ) (lists : List (List SearchResult)) :
    ∀ (fs : List (String × ℚ)) (dm : List (String × SearchResult)),
    (mergeLoop k lists (fs, dm)).1.map Prod.fst =
      foldKeys (fs.map Prod.fst) ((lists.map (List.map SearchResult.doc_id)).flatten) := by
  induction lists with
  | nil => intro fs dm; simp [mergeLoop, foldKeys]
  | cons l ls ih =>
    intro fs dm
    rw [mergeLoop]
    rw [show mergeListLoop k 0 l (fs, dm) =
      ((mergeListLoop k 0 l (fs, dm)).1, (mergeListLoop k 0 l (fs, dm)).2) from rfl]
    rw [ih, mergeListLoop_fst_keys, List.map_cons, List.flatten_cons, foldKeys_append]

theorem mergeLoop_snd_keys (k : ℤ) (lists : List (List SearchResult)) :
    ∀ (fs : List (String × ℚ)) (dm : List (String × SearchResult)),
    (mergeLoop k lists (fs, dm)).2.map Prod.fst =
      foldKeys (dm.map Prod.fst) ((lists.map (List.map SearchResult.doc_id)).flatten) := by
  induction lists with
  | nil => intro fs dm; simp [mergeLoop, foldKeys]
  | cons l ls ih =>
    intro fs dm
    rw [mergeLoop]
    rw [show mergeListLoop k 0 l (fs, dm) =
      ((mergeListLoop k 0 l (fs, dm)).1, (mergeListLoop k 0 l (fs, dm)).2) from rfl]
    rw [ih, mergeListLoop_snd_keys, List.map_cons, List.flatten_cons, foldKeys_append]

theorem mergeLoop_snd_alookup (k : ℤ) (lists : List (List SearchResult)) (d : String) :
    ∀ (fs : List (String × ℚ)) (dm : List (String × SearchResult)),
    alookup d (mergeLoop k lists (fs, dm)).2 =
      match alookup d dm with
      | some v => some v
      | none => lists.flatten.find? (fun r => decide (r.doc_id = d)) := by
  induction lists with
  | nil =>
    intro fs dm
    rw [mergeLoop]
    cases alookup d dm <;> simp
  | cons l ls ih =>
    intro fs dm
    rw [mergeLoop]
    rw [show mergeListLoop k 0 l (fs, dm) =
      ((mergeListLoop k 0 l (fs, dm)).1, (mergeListLoop k 0 l (fs, dm)).2) from rfl]
    rw [ih, mergeListLoop_snd_alookup]
    cases hdm : alookup d dm with
    | some v => simp
    | none =>
      rw [List.flatten_cons, List.find?_append]
      cases hfind : l.find? (fun r => decide (r.doc_id = d)) <;> simp [Option.or]

theorem mergeLoop_snd_wf (k : ℤ) (lists : List (List SearchResult)) :
    ∀ (fs : List (String × ℚ)) (dm : List (String × SearchResult)),
    (∀ p ∈ dm, (p.2).doc_id = p.1) →
    ∀ p ∈ (mergeLoop k lists (fs, dm)).2, (p.2).doc_id = p.1 := by
  induction lists with
  | nil => intro fs dm h; exact h
  | cons l ls ih =>
    intro fs dm h
    rw [mergeLoop]
    rw [show mergeListLoop k 0 l (fs, dm) =
      ((mergeListLoop k 0 l (fs, dm)).1, (mergeListLoop k 0 l (fs, dm)).2) from rfl]
    exact ih _ _ (mergeListLoop_snd_wf k l 0 fs dm h)

/-! ### Contribution arithmetic -/

theorem contribFrom_eq_zero (k : ℤ) (d : String) (lst : List SearchResult)
    (h : d ∉ lst.map SearchResult.doc_id) :
    ∀ rank, contribFrom k d rank lst = 0 := by
  induction lst with
  | nil => intro rank; rfl
  | cons r rest ih =>
    intro rank
    simp only [List.map_cons, List.mem_cons] at h
    push_neg at h
    rw [contribFrom, if_neg (fun hh => h.1 hh.symm), ih h.2, add_zero]

theorem contribFrom_nodup (k : ℤ) (d : String) (lst : List SearchResult)
    (h : (lst.map SearchResult.doc_id).Nodup) :
    ∀ rank, contribFrom k d rank lst =
      if d ∈ lst.map SearchResult.doc_id then
        1 / ((k : ℚ) + (rank : ℚ) + (((lst.map SearchResult.doc_id).indexOf d : ℕ) : ℚ) + 1)
      else 0 := by
  induction lst with
  | nil => intro rank; simp [contribFrom]
  | cons r rest ih =>
    intro rank
    simp only [List.map_cons, List.nodup_cons] at h
    by_cases hrd : r.doc_id = d
    · subst hrd
      rw [contribFrom, if_pos rfl, contribFrom_eq_zero k _ rest h.1, add_zero]
      simp only [List.map_cons, List.mem_cons, true_or, if_true]
      rw [List.indexOf_cons_self]
      norm_num
    · rw [contribFrom, if_neg hrd, ih h.2, zero_add]
      have hne : d ≠ r.doc_id := fun hh => hrd hh.symm
      simp only [List.map_cons, List.mem_cons]
      by_cases hmem : d ∈ rest.map SearchResult.doc_id
      · rw [if_pos hmem, if_pos (Or.inr hmem)]
        rw [List.indexOf_cons_ne _ hrd]
        push_cast
        ring
      · rw [if_neg hmem]
        rw [if_neg (by rintro (hh | hh); exacts [hne hh, hmem hh])]

theorem codeFusedScore_eq_specFusedScore (k : ℤ) (lists : List (List SearchResult))
    (d : String) (h : ∀ l ∈ lists, (l.map SearchResult.doc_id).Nodup) :
    codeFusedScore k lists d = specFusedScore k lists d := by
  unfold codeFusedScore specFusedScore
  congr 1
  apply List.map_congr_left
  intro l hl
  rw [contribFrom_nodup k d l (h l hl) 0]
  simp

/-! ### Assembled facts about the merge stages -/

theorem scoreOf_nil (d : String) : scoreOf [] d = 0 := rfl

theorem rrf_merge_pos (lists : List (List SearchResult)) (k : ℤ) (hk : 0 < k) :
    rrf_merge lists k =
      Except.ok ((mergeSortedIds k lists).map (mergeRebuild k lists)) := by
  unfold rrf_merge
  rw [if_neg (not_le.2 hk)]
  rfl

theorem mergeFused_keys (k : ℤ) (lists : List (List SearchResult)) :
    (mergeFused k lists).map Prod.fst =
      foldKeys [] ((lists.map (List.map SearchResult.doc_id)).flatten) := by
  unfold mergeFused
  rw [mergeLoop_fst_keys]
  rfl

theorem mergeDocMap_keys (k : ℤ) (lists : List (List SearchResult)) :
    (mergeDocMap k lists).map Prod.fst =
      foldKeys [] ((lists.map (List.map SearchResult.doc_id)).flatten) := by
  unfold mergeDocMap
  rw [mergeLoop_snd_keys]
  rfl

theorem mergeFused_scoreOf (k : ℤ) (lists : List (List SearchResult)) (d : String) :
    scoreOf (mergeFused k lists) d = codeFusedScore k lists d := by
  unfold mergeFused codeFusedScore
  rw [mergeLoop_fst_score, scoreOf_nil, zero_add]

theorem mergeDocMap_alookup (k : ℤ) (lists : List (List SearchResult)) (d : String) :
    alookup d (mergeDocMap k lists) =
      lists.flatten.find? (fun r => decide (r.doc_id = d)) := by
  unfold mergeDocMap
  rw [mergeLoop_snd_alookup]
  rfl

theorem mergeDocMap_wf (k : ℤ) (lists : List (List SearchResult)) :
    ∀ p ∈ mergeDocMap k lists, (p.2).doc_id = p.1 := by
  unfold mergeDocMap
  exact mergeLoop_snd_wf k lists [] [] (by intro p hp; cases hp)

theorem mergeRebuild_doc_id (k : ℤ) (lists : List (List SearchResult)) (d : String) :
    (mergeRebuild k lists d).doc_id = d := by
  unfold mergeRebuild
  cases h : alookup d (mergeDocMap k lists) with
  | none => rfl
  | some r =>
    have := mergeDocMap_wf k lists (d, r) (alookup_eq_some_mem h)
    simpa using this

theorem mergeRebuild_score (k : ℤ) (lists : List (List SearchResult)) (d : String) :
    (mergeRebuild k lists d).score = codeFusedScore k lists d := by
  unfold mergeRebuild
  cases h : alookup d (mergeDocMap k lists) with
  | none => simp [mergeFused_scoreOf]
  | some r => simp [mergeFused_scoreOf]

theorem mergeOutput_map_doc_id (k : ℤ) (lists : List (List SearchResult)) :
    ((mergeSortedIds k lists).map (mergeRebuild k lists)).map SearchResult.doc_id =
      mergeSortedIds k lists := by
  rw [List.map_map]
  have : SearchResult.doc_id ∘ mergeRebuild k lists = id := by
    funext d
    exact mergeRebuild_doc_id k lists d
  rw [this, List.map_id]

theorem mergeSortedIds_perm (k : ℤ) (lists : List (List SearchResult)) :
    (mergeSortedIds k lists).Perm ((mergeFused k lists).map Prod.fst) := by
  unfold mergeSortedIds
  exact List.mergeSort_perm _ _

theorem mergeSortedIds_mem (k : ℤ) (lists : List (List SearchResult)) (d : String) :
    d ∈ mergeSortedIds k lists ↔ d ∈ lists.flatten.map SearchResult.doc_id := by
  rw [(mergeSortedIds_perm k lists).mem_iff, mergeFused_keys, mem_foldKeys]
  simp [List.map_flatten]

theorem mergeSortedIds_nodup (k : ℤ) (lists : List (List SearchResult)) :
    (mergeSortedIds k lists).Nodup := by
  refine (mergeSortedIds_perm k lists).nodup_iff.2 ?_
  rw [mergeFused_keys]
  exact nodup_foldKeys _ _ List.nodup_nil

theorem mergeSort_le_trans (fused : List (String × ℚ)) :
    ∀ (a b c : String),
      (fun a b => decide (scoreOf fused b ≤ scoreOf fused a)) a b →
      (fun a b => decide (scoreOf fused b ≤ scoreOf fused a)) b c →
      (fun a b => decide (scoreOf fused b ≤ scoreOf fused a)) a c := by
  intro a b c hab hbc
  simp only [decide_eq_true_eq] at hab hbc ⊢
  exact le_trans hbc hab

theorem mergeSort_le_total (fused : List (String × ℚ)) :
    ∀ (a b : String),
      ((fun a b => decide (scoreOf fused b ≤ scoreOf fused a)) a b ||
        (fun a b => decide (scoreOf fused b ≤ scoreOf fused a)) b a) = true := by
  intro a b
  simp only [Bool.or_eq_true, decide_eq_true_eq]
  exact le_total _ _

theorem mergeSortedIds_sorted (k : ℤ) (lists : List (List SearchResult)) :
    (mergeSortedIds k lists).Pairwise
      (fun a b => scoreOf (mergeFused k lists) b ≤ scoreOf (mergeFused k lists) a) := by
  have h := @List.sorted_mergeSort String
    (fun a b => decide (scoreOf (mergeFused k lists) b ≤ scoreOf (mergeFused k lists) a))
    (mergeSort_le_trans (mergeFused k lists))
    (mergeSort_le_total (mergeFused k lists))
    ((mergeFused k lists).map Prod.fst)
  refine (List.Pairwise.imp ?_ h)
  intro a b hab
  simpa using hab

theorem pair_sublist_split {α : Type} {a b : α} {l : List α}
    (h : [a, b].Sublist l) : ∃ p q s, l = p ++ a :: (q ++ b :: s) := by
  induction l with
  | nil => cases h
  | cons x xs ih =>
    cases h with
    | cons _ h' =>
      obtain ⟨p, q, s, rfl⟩ := ih h'
      exact ⟨x :: p, q, s, rfl⟩
    | cons₂ _ h' =>
      have hb : b ∈ xs := List.singleton_sublist.1 h'
      obtain ⟨q, s, rfl⟩ := List.append_of_mem hb
      exact ⟨[], q, s, rfl⟩

theorem mergeLoop_all_empty (k : ℤ) (lists : List (List SearchResult))
    (h : ∀ l ∈ lists, l = []) :
    ∀ acc, mergeLoop k lists acc = acc := by
  induction lists with
  | nil => intro acc; rfl
  | cons l ls ih =>
    intro acc
    rw [mergeLoop, h l (List.mem_cons_self _ _)]
    exact ih (fun l' hl' => h l' (List.mem_cons_of_mem _ hl')) acc

/-- C1: for every list of ranked result lists and every positive `k`, the
RRF merge succeeds and assigns each distinct `doc_id` a fused score equal
to the sum, over every list in which it appears, of `1 / (k + rank)` with
`rank` its 1-based rank in that list (zero contribution from lists where
it is absent), and it returns exactly the distinct `doc_id`s seen across
all lists, sorted by descending fused score.  The per-list `Nodup`
hypothesis makes "its rank in that list" well defined, as the claim's
wording assumes. -/
theorem rrf_merge_spec_scores_and_order
    (lists : List (List SearchResult)) (k : ℤ) (hk : 0 < k)
    (hnd : ∀ l ∈ lists, (l.map SearchResult.doc_id).Nodup) :
    ∃ out, rrf_merge lists k = Except.ok out ∧
      (out.map SearchResult.doc_id).Nodup ∧
      (∀ d, d ∈ out.map SearchResult.doc_id ↔
        d ∈ lists.flatten.map SearchResult.doc_id) ∧
      (∀ r ∈ out, r.score = specFusedScore k lists r.doc_id) ∧
      out.Pairwise (fun r1 r2 => r2.score ≤ r1.score) := by
  refine ⟨_, rrf_merge_pos lists k hk, ?_, ?_, ?_, ?_⟩
  · rw [mergeOutput_map_doc_id]
    exact mergeSortedIds_nodup k lists
  · intro d
    rw [mergeOutput_map_doc_id]
    exact mergeSortedIds_mem k lists d
  · intro r hr
    obtain ⟨d, hd, rfl⟩ := List.mem_map.1 hr
    rw [mergeRebuild_score, mergeRebuild_doc_id,
      codeFusedScore_eq_specFusedScore k lists d hnd]
  · rw [List.pairwise_map]
    refine List.Pairwise.imp ?_ (mergeSortedIds_sorted k lists)
    intro a b hab
    rw [mergeRebuild_score, mergeRebuild_score, ← mergeFused_scoreOf,
      ← mergeFused_scoreOf]
    exact hab

/-- C7: when a `doc_id` appears in more than one list, the returned result
for it keeps the `content`, `metadata` and `source_index` of its first
occurrence in list order then rank order (the first match in the
flattened input), and only its `score` changes, to the fused score. -/
theorem rrf_merge_first_occurrence_payload
    (lists : List (List SearchResult)) (k : ℤ) (d : String) (i j : ℕ)
    (hk : 0 < k) (hi : i < lists.length) (hj : j < lists.length) (hij : i ≠ j)
    (hdi : d ∈ (lists.get ⟨i, hi⟩).map SearchResult.doc_id)
    (hdj : d ∈ (lists.get ⟨j, hj⟩).map SearchResult.doc_id) :
    ∃ out r0, rrf_merge lists k = Except.ok out ∧
      lists.flatten.find? (fun r => decide (r.doc_id = d)) = some r0 ∧
      ∃ r, r ∈ out ∧ r.doc_id = d ∧ r.content = r0.content ∧
        r.metadata = r0.metadata ∧ r.source_index = r0.source_index ∧
        r.score = codeFusedScore k lists d := by
  have hdflat : d ∈ lists.flatten.map SearchResult.doc_id := by
    obtain ⟨r, hr, hrd⟩ := List.mem_map.1 hdi
    exact List.mem_map.2 ⟨r, List.mem_flatten_of_mem (List.get_mem lists i hi) hr, hrd⟩
  have hfind : ∃ r0, lists.flatten.find? (fun r => decide (r.doc_id = d)) = some r0 := by
    rw [← Option.isSome_iff_exists, List.find?_isSome]
    obtain ⟨r, hr, hrd⟩ := List.mem_map.1 hdflat
    exact ⟨r, hr, by simp [hrd]⟩
  obtain ⟨r0, hr0⟩ := hfind
  refine ⟨_, r0, rrf_merge_pos lists k hk, hr0, mergeRebuild k lists d, ?_, ?_, ?_, ?_, ?_, ?_⟩
  · exact List.mem_map_of_mem _ ((mergeSortedIds_mem k lists d).2 hdflat)
  · exact mergeRebuild_doc_id k lists d
  · unfold mergeRebuild
    rw [mergeDocMap_alookup, hr0]
  · unfold mergeRebuild
    rw [mergeDocMap_alookup, hr0]
  · unfold mergeRebuild
    rw [mergeDocMap_alookup, hr0]
  · exact mergeRebuild_score k lists d

/-- C8: constructing the scorer with a non-positive default `k`, or
invoking the merge with a non-positive explicit `k`, fails with the
`ValueError`; an empty `result_lists`, or input lists that are all empty,
is valid and yields an empty merged result. -/
theorem rrf_invalid_k_and_empty_inputs :
    (∀ k : ℤ, k ≤ 0 →
      RRFScorer.init k = Except.error "RRF constant k must be positive") ∧
    (∀ (scorer : RRFScorer) (lists : List (List SearchResult)) (k : ℤ), k ≤ 0 →
      RRFScorer.merge scorer lists (some k) =
        Except.error "RRF constant k must be positive") ∧
    (∀ k : ℤ, 0 < k → rrf_merge [] k = Except.ok []) ∧
    (∀ (k : ℤ) (lists : List (List SearchResult)), 0 < k →
      (∀ l ∈ lists, l = []) → rrf_merge lists k = Except.ok []) := by
  have hempties : ∀ (k : ℤ) (lists : List (List SearchResult)), 0 < k →
      (∀ l ∈ lists, l = []) → rrf_merge lists k = Except.ok [] := by
    intro k lists hk hempty
    rw [rrf_merge_pos lists k hk]
    have h0 : mergeFused k lists = [] := by
      unfold mergeFused
      rw [mergeLoop_all_empty k lists hempty]
    simp [mergeSortedIds, h0]
  refine ⟨?_, ?_, fun k hk => hempties k [] hk (fun l hl => by cases hl), hempties⟩
  · intro k hk
    unfold RRFScorer.init
    rw [if_pos hk]
  · intro scorer lists k hk
    unfold RRFScorer.merge
    simp only [Option.getD_some]
    unfold rrf_merge
    rw [if_pos hk]

/-- C10: when doc_ids have exactly equal fused scores, the merge orders
them by the first-occurrence order of the doc_ids across the flattened
inputs, because the score map preserves insertion order and the sort is
stable.  (Determinism on identical inputs is immediate: the model is a
pure function.) -/
theorem rrf_merge_tie_first_occurrence_order
    (lists : List (List SearchResult)) (k : ℤ) (a b : String)
    (hk : 0 < k)
    (hb : b ∈ lists.flatten.map SearchResult.doc_id)
    (htie : codeFusedScore k lists a = codeFusedScore k lists b)
    (horder : (lists.flatten.map SearchResult.doc_id).indexOf a <
      (lists.flatten.map SearchResult.doc_id).indexOf b) :
    ∃ out p q s, rrf_merge lists k = Except.ok out ∧
      out.map SearchResult.doc_id = p ++ a :: (q ++ b :: s) := by
  have hids : (lists.map (List.map SearchResult.doc_id)).flatten
      = lists.flatten.map SearchResult.doc_id := by
    simp [List.map_flatten]
  have hpair : [a, b].Sublist ((mergeFused k lists).map Prod.fst) := by
    rw [mergeFused_keys, hids]
    exact pair_sublist_foldKeys _ [] a b (by simp) (by simp) hb horder
  have hscore : scoreOf (mergeFused k lists) b ≤ scoreOf (mergeFused k lists) a := by
    rw [mergeFused_scoreOf, mergeFused_scoreOf, htie]
  have hsub : [a, b].Sublist (mergeSortedIds k lists) := by
    unfold mergeSortedIds
    refine List.sublist_mergeSort (mergeSort_le_trans _) (mergeSort_le_total _) ?_ hpair
    refine List.Pairwise.cons ?_ (List.pairwise_singleton _ _)
    intro y hy
    rw [List.mem_singleton] at hy
    subst hy
    exact decide_eq_true hscore
  obtain ⟨p, q, s, hsplit⟩ := pair_sublist_split hsub
  exact ⟨_, p, q, s, rrf_merge_pos lists k hk,
    by rw [mergeOutput_map_doc_id, hsplit]⟩

theorem rrf_merge_spec_scores_and_order_witness :
    (0 : ℤ) < 60 ∧ (∀ l ∈ exListsA, (l.map SearchResult.doc_id).Nodup) ∧
    (∃ out, rrf_merge exListsA 60 = Except.ok out ∧
      (out.map SearchResult.doc_id).Nodup ∧
      (∀ d, d ∈ out.map SearchResult.doc_id ↔
        d ∈ exListsA.flatten.map SearchResult.doc_id) ∧
      (∀ r ∈ out, r.score = specFusedScore 60 exListsA r.doc_id) ∧
      out.Pairwise (fun r1 r2 => r2.score ≤ r1.score)) :=
  ⟨by decide, by decide,
    rrf_merge_spec_scores_and_order exListsA 60 (by decide) (by decide)⟩

theorem rrf_merge_first_occurrence_payload_witness :
    (0 : ℤ) < 60 ∧ (0 : ℕ) ≠ 1 ∧
    "x" ∈ (exListsB.get ⟨0, by decide⟩).map SearchResult.doc_id ∧
    "x" ∈ (exListsB.get ⟨1, by decide⟩).map SearchResult.doc_id ∧
    (∃ out r0, rrf_merge exListsB 60 = Except.ok out ∧
      exListsB.flatten.find? (fun r => decide (r.doc_id = "x")) = some r0 ∧
      ∃ r, r ∈ out ∧ r.doc_id = "x" ∧ r.content = r0.content ∧
        r.metadata = r0.metadata ∧ r.source_index = r0.source_index ∧
        r.score = codeFusedScore 60 exListsB "x") :=
  ⟨by decide, by decide, by decide, by decide,
    rrf_merge_first_occurrence_payload exListsB 60 "x" 0 1 (by decide)
      (by decide) (by decide) (by decide) (by decide) (by decide)⟩

theorem rrf_invalid_k_and_empty_inputs_witness :
    ((-5 : ℤ) ≤ 0 ∧
      RRFScorer.init (-5) = Except.error "RRF constant k must be positive") ∧
    (RRFScorer.merge ⟨60⟩ exListsA (some 0) =
      Except.error "RRF constant k must be positive") ∧
    ((0 : ℤ) < 60 ∧ rrf_merge [] 60 = Except.ok []) ∧
    (rrf_merge [[], [], []] 60 = Except.ok []) :=
  ⟨⟨by decide, (rrf_invalid_k_and_empty_inputs.1 (-5) (by decide))⟩,
    rrf_invalid_k_and_empty_inputs.2.1 ⟨60⟩ exListsA 0 (by decide),
    ⟨by decide, rrf_invalid_k_and_empty_inputs.2.2.1 60 (by decide)⟩,
    rrf_invalid_k_and_empty_inputs.2.2.2 60 [[], [], []] (by decide) (by decide)⟩

theorem rrf_merge_tie_first_occurrence_order_witness :
    (0 : ℤ) < 60 ∧
    "v" ∈ exListsC.flatten.map SearchResult.doc_id ∧
    codeFusedScore 60 exListsC "u" = codeFusedScore 60 exListsC "v" ∧
    (exListsC.flatten.map SearchResult.doc_id).indexOf "u" <
      (exListsC.flatten.map SearchResult.doc_id).indexOf "v" ∧
    (∃ out p q s, rrf_merge exListsC 60 = Except.ok out ∧
      out.map SearchResult.doc_id = p ++ "u" :: (q ++ "v" :: s)) :=
  by
  have htie : codeFusedScore 60 exListsC "u" = codeFusedScore 60 exListsC "v" := by
    norm_num [codeFusedScore, contribFrom, exListsC, exR,
      show ("v" : String) ≠ "u" from by decide, show ("u" : String) ≠ "v" from by decide]
  exact ⟨by decide, by decide, htie, by decide,
    rrf_merge_tie_first_occurrence_order exListsC 60 "u" "v" (by decide)
      (by decide) htie (by decide)⟩

/-- C9: for every combination of inputs (with provided strings non-empty,
since the code treats the empty string like an absent value), the filter
builder returns clauses in the fixed order: one ticker `term` clause if
`ticker` is given, then exactly one `range` clause on `date` with `gte`
set iff `start_date` is given and `lte` set iff `end_date` is given (if
either is given), then one clause per custom filter entry in
mapping-iteration order — a `terms` clause for a list value, else a
`term` clause; with all inputs absent it returns the empty list. -/
theorem build_filters_clause_order
    (builder : SearchFilterBuilder)
    (ticker start_date end_date : Option String)
    (filters : Option (List (String × FilterValue)))
    (hticker : ∀ s, ticker = some s → s ≠ "")
    (hstart : ∀ s, start_date = some s → s ≠ "")
    (hend : ∀ s, end_date = some s → s ≠ "") :
    builder.build ticker start_date end_date filters =
      specBuildFilters ticker start_date end_date filters ∧
    builder.build none none none none = [] := by
  constructor
  · have h1 : truthyStr ticker = ticker.isSome := by
      cases ticker with
      | none => rfl
      | some s => simp [truthyStr, hticker s rfl]
    have h2 : truthyStr start_date = start_date.isSome := by
      cases start_date with
      | none => rfl
      | some s => simp [truthyStr, hstart s rfl]
    have h3 : truthyStr end_date = end_date.isSome := by
      cases end_date with
      | none => rfl
      | some s => simp [truthyStr, hend s rfl]
    unfold SearchFilterBuilder.build
    rw [h1, h2, h3]
    rcases ticker with _ | t <;> rcases start_date with _ | sd <;>
      rcases end_date with _ | ed <;> rcases filters with _ | fs <;>
      simp [specBuildFilters]
  · rfl

theorem build_filters_clause_order_witness :
    (∀ s, (some "AAPL" : Option String) = some s → s ≠ "") ∧
    (∀ s, (some "2024-01-01" : Option String) = some s → s ≠ "") ∧
    (∀ s, (none : Option String) = some s → s ≠ "") ∧
    (SearchFilterBuilder.build ⟨⟩ (some "AAPL") (some "2024-01-01") none
        (some [("sector", FilterValue.list ["Technology", "Finance"]),
          ("doc_type", FilterValue.str "10-K")]) =
      specBuildFilters (some "AAPL") (some "2024-01-01") none
        (some [("sector", FilterValue.list ["Technology", "Finance"]),
          ("doc_type", FilterValue.str "10-K")]) ∧
      SearchFilterBuilder.build ⟨⟩ none none none none = []) := by
  have hA : ∀ s, (some "AAPL" : Option String) = some s → s ≠ "" := by
    intro s h
    injection h with h2
    subst h2
    decide
  have hS : ∀ s, (some "2024-01-01" : Option String) = some s → s ≠ "" := by
    intro s h
    injection h with h2
    subst h2
    decide
  have hN : ∀ s, (none : Option String) = some s → s ≠ "" := by
    intro s h
    cases h
  exact ⟨hA, hS, hN,
    build_filters_clause_order ⟨⟩ (some "AAPL") (some "2024-01-01") none
      (some [("sector", FilterValue.list ["Technology", "Finance"]),
        ("doc_type", FilterValue.str "10-K")]) hA hS hN⟩

/-! ### Circuit-breaker facts -/

theorem record_failure_fields (cb : CircuitBreaker) (t : ℚ) :
    (cb.record_failure t).failures = cb.failures + 1 ∧
    (cb.record_failure t).failure_threshold = cb.failure_threshold ∧
    (cb.record_failure t).timeout = cb.timeout ∧
    (cb.record_failure t).last_failure_time = some t := by
  simp only [CircuitBreaker.record_failure]
  split <;> simp

theorem record_failure_state_low (cb : CircuitBreaker) (t : ℚ)
    (h : cb.failures + 1 < cb.failure_threshold) :
    (cb.record_failure t).state = cb.state := by
  simp only [CircuitBreaker.record_failure]
  split
  · rename_i h2
    omega
  · rfl

theorem record_failure_opens (cb : CircuitBreaker) (t : ℚ)
    (h : cb.failure_threshold ≤ cb.failures + 1) :
    (cb.record_failure t).state = BreakerState.opened := by
  simp only [CircuitBreaker.record_failure]
  split
  · rfl
  · rename_i h2
    omega

theorem record_failures_fields (ts : List ℚ) :
    ∀ cb : CircuitBreaker,
    (cb.record_failures ts).failures = cb.failures + ts.length ∧
    (cb.record_failures ts).failure_threshold = cb.failure_threshold ∧
    (cb.record_failures ts).timeout = cb.timeout := by
  induction ts with
  | nil => intro cb; exact ⟨rfl, rfl, rfl⟩
  | cons t ts ih =>
    intro cb
    obtain ⟨h1, h2, h3⟩ := ih (cb.record_failure t)
    obtain ⟨g1, g2, g3, _⟩ := record_failure_fields cb t
    have e : cb.record_failures (t :: ts) = (cb.record_failure t).record_failures ts := rfl
    refine ⟨?_, ?_, ?_⟩
    · rw [e, h1, g1, List.length_cons]
      omega
    · rw [e, h2, g2]
    · rw [e, h3, g3]

theorem record_failures_state_low (ts : List ℚ) :
    ∀ cb : CircuitBreaker, cb.failures + ts.length < cb.failure_threshold →
    (cb.record_failures ts).state = cb.state := by
  induction ts with
  | nil => intro cb _; rfl
  | cons t ts ih =>
    intro cb h
    rw [List.length_cons] at h
    obtain ⟨g1, g2, g3, _⟩ := record_failure_fields cb t
    have e : cb.record_failures (t :: ts) = (cb.record_failure t).record_failures ts := rfl
    rw [e, ih (cb.record_failure t) (by rw [g1, g2]; omega)]
    exact record_failure_state_low cb t (by omega)

theorem record_failures_concat (cb : CircuitBreaker) (ts : List ℚ) (t : ℚ) :
    cb.record_failures (ts ++ [t]) = (cb.record_failures ts).record_failure t := by
  unfold CircuitBreaker.record_failures
  rw [List.foldl_append]
  rfl

theorem record_failures_opened (cb : CircuitBreaker) (ts : List ℚ)
    (hne : ts ≠ [])
    (h : cb.failure_threshold ≤ cb.failures + ts.length) :
    (cb.record_failures ts).state = BreakerState.opened := by
  obtain ⟨ts', t, rfl⟩ : ∃ ts' t, ts = ts' ++ [t] := by
    refine ⟨ts.dropLast, ts.getLast hne, ?_⟩
    rw [List.dropLast_append_getLast hne]
  rw [record_failures_concat]
  obtain ⟨h1, h2, h3⟩ := record_failures_fields ts' cb
  refine record_failure_opens _ t ?_
  rw [h1, h2]
  rw [List.length_append, List.length_singleton] at h
  omega

theorem can_execute_closed (cb : CircuitBreaker) (now : ℚ)
    (h : cb.state = BreakerState.closed) :
    cb.can_execute now = (cb, true) := by
  unfold CircuitBreaker.can_execute
  rw [if_pos h]

theorem can_execute_open_recent (cb : CircuitBreaker) (now t : ℚ)
    (hst : cb.state = BreakerState.opened)
    (hlast : cb.last_failure_time = some t)
    (h : now - t < cb.timeout) :
    cb.can_execute now = (cb, false) := by
  unfold CircuitBreaker.can_execute
  rw [if_neg (by rw [hst]; exact fun hh => by cases hh), if_pos hst, hlast]
  simp only [not_le.2 h, if_false]

theorem can_execute_open_elapsed (cb : CircuitBreaker) (now t : ℚ)
    (hst : cb.state = BreakerState.opened)
    (hlast : cb.last_failure_time = some t)
    (h : cb.timeout ≤ now - t) :
    cb.can_execute now = ({ cb with state := BreakerState.half_open }, true) := by
  unfold CircuitBreaker.can_execute
  rw [if_neg (by rw [hst]; exact fun hh => by cases hh), if_pos hst, hlast]
  simp only [h, if_true]

/-- C2: starting from a fresh breaker, after exactly `failure_threshold`
consecutive `record_failure` calls the state is `open` and `can_execute`
returns `false` while the timeout has not elapsed since the last failure
(strictly fewer calls leave it `closed`); a single `record_success` on any
breaker resets `failures` to 0 and the state to `closed`; once the timeout
has elapsed past the last failure, `can_execute` returns `true` and the
state becomes `half-open`; and a `record_failure` while `half-open`
returns the state to `open`. -/
theorem circuit_breaker_lifecycle
    (n : ℕ) (τ : ℚ) (ts : List ℚ) (tl now1 now2 t3 : ℚ) (m : ℕ)
    (b : CircuitBreaker)
    (hn : 0 < n) (hτ : 0 < τ) (hlen : ts.length = n) (hm : m < n)
    (hlast : ((CircuitBreaker.init n τ).record_failures ts).last_failure_time = some tl)
    (hnow1 : now1 - tl < τ) (hnow2 : τ ≤ now2 - tl) :
    ((CircuitBreaker.init n τ).record_failures ts).state = BreakerState.opened ∧
    ((CircuitBreaker.init n τ).record_failures (ts.take m)).state =
      BreakerState.closed ∧
    (((CircuitBreaker.init n τ).record_failures ts).can_execute now1).2 = false ∧
    b.record_success.failures = 0 ∧ b.record_success.state = BreakerState.closed ∧
    (((CircuitBreaker.init n τ).record_failures ts).can_execute now2).2 = true ∧
    (((CircuitBreaker.init n τ).record_failures ts).can_execute now2).1.state =
      BreakerState.half_open ∧
    ((((CircuitBreaker.init n τ).record_failures ts).can_execute now2).1.record_failure
      t3).state = BreakerState.opened := by
  obtain ⟨h1, h2, h3⟩ := record_failures_fields ts (CircuitBreaker.init n τ)
  have hinit : (CircuitBreaker.init n τ).failures = 0 := rfl
  have hinit2 : (CircuitBreaker.init n τ).failure_threshold = n := rfl
  have hinit3 : (CircuitBreaker.init n τ).timeout = τ := rfl
  have hopen : ((CircuitBreaker.init n τ).record_failures ts).state =
      BreakerState.opened := by
    refine record_failures_opened _ ts ?_ ?_
    · intro hnil
      rw [hnil] at hlen
      simp at hlen
      omega
    · rw [hinit, hinit2, hlen]
      omega
  have hrec := can_execute_open_recent _ now1 tl hopen hlast (by rw [h3, hinit3]; exact hnow1)
  have helap := can_execute_open_elapsed _ now2 tl hopen hlast (by rw [h3, hinit3]; exact hnow2)
  refine ⟨hopen, ?_, ?_, rfl, rfl, ?_, ?_, ?_⟩
  · refine record_failures_state_low _ _ ?_
    rw [hinit, hinit2, List.length_take, hlen]
    omega
  · rw [hrec]
  · rw [helap]
  · rw [helap]
  · rw [helap]
    refine record_failure_opens _ t3 ?_
    have e1 : ({ ((CircuitBreaker.init n τ).record_failures ts) with
        state := BreakerState.half_open }).failures =
        ((CircuitBreaker.init n τ).record_failures ts).failures := rfl
    have e2 : ({ ((CircuitBreaker.init n τ).record_failures ts) with
        state := BreakerState.half_open }).failure_threshold =
        ((CircuitBreaker.init n τ).record_failures ts).failure_threshold := rfl
    rw [e1, e2, h1, h2, hinit, hinit2, hlen]
    omega

theorem circuit_breaker_lifecycle_witness :
    (0 : ℕ) < 2 ∧ (0 : ℚ) < 60 ∧
    ([(0 : ℚ), 1].length = 2) ∧ (1 : ℕ) < 2 ∧
    ((CircuitBreaker.init 2 60).record_failures [0, 1]).last_failure_time = some 1 ∧
    ((5 : ℚ) - 1 < 60) ∧ ((60 : ℚ) ≤ 100 - 1) ∧
    (((CircuitBreaker.init 2 60).record_failures [0, 1]).state = BreakerState.opened ∧
    ((CircuitBreaker.init 2 60).record_failures ([(0 : ℚ), 1].take 1)).state =
      BreakerState.closed ∧
    (((CircuitBreaker.init 2 60).record_failures [0, 1]).can_execute 5).2 = false ∧
    (CircuitBreaker.init 3 60).record_success.failures = 0 ∧
    (CircuitBreaker.init 3 60).record_success.state = BreakerState.closed ∧
    (((CircuitBreaker.init 2 60).record_failures [0, 1]).can_execute 100).2 = true ∧
    (((CircuitBreaker.init 2 60).record_failures [0, 1]).can_execute 100).1.state =
      BreakerState.half_open ∧
    ((((CircuitBreaker.init 2 60).record_failures [0, 1]).can_execute 100).1.record_failure
      101).state = BreakerState.opened) :=
  ⟨by decide, by norm_num, by decide, by decide, by decide, by norm_num, by norm_num,
    circuit_breaker_lifecycle 2 60 [0, 1] 1 5 100 101 1 (CircuitBreaker.init 3 60)
      (by decide) (by norm_num) (by decide) (by decide) (by decide)
      (by norm_num) (by norm_num)⟩

theorem can_execute_half_open (cb : CircuitBreaker) (now : ℚ)
    (h : cb.state = BreakerState.half_open) :
    cb.can_execute now = (cb, true) := by
  unfold CircuitBreaker.can_execute
  rw [if_neg (by rw [h]; exact fun hh => by cases hh),
    if_neg (by rw [h]; exact fun hh => by cases hh), h]
  rfl

theorem apply_preserves_params (cb : CircuitBreaker) (e : BreakerEvent) :
    (BreakerEvent.apply cb e).failure_threshold = cb.failure_threshold ∧
    (BreakerEvent.apply cb e).timeout = cb.timeout := by
  cases e with
  | fail t =>
    exact ⟨(record_failure_fields cb t).2.1, (record_failure_fields cb t).2.2.1⟩
  | succ t => exact ⟨rfl, rfl⟩
  | exec t =>
    simp only [BreakerEvent.apply]
    unfold CircuitBreaker.can_execute
    repeat' split
    all_goals exact ⟨rfl, rfl⟩

theorem breaker_inv_step (cb : CircuitBreaker) (e : BreakerEvent) (t0 : ℚ)
    (hth : 0 < cb.failure_threshold) (hto : 0 < cb.timeout)
    (hinv : BreakerInv cb t0) (hle : t0 ≤ e.time) :
    BreakerInv (BreakerEvent.apply cb e) e.time := by
  obtain ⟨hopen, hhalf, hclosed⟩ := hinv
  cases e with
  | fail t =>
    simp only [BreakerEvent.time] at hle ⊢
    simp only [BreakerEvent.apply]
    obtain ⟨f1, f2, f3, f4⟩ := record_failure_fields cb t
    by_cases hcase : cb.failure_threshold ≤ cb.failures + 1
    · have hst := record_failure_opens cb t hcase
      refine ⟨?_, ?_, ?_⟩
      · intro _
        exact ⟨by omega, t, f4, le_refl t, by rw [f3]; simpa using hto⟩
      · intro h
        rw [hst] at h
        cases h
      · intro h
        rw [hst] at h
        cases h
    · have hst := record_failure_state_low cb t (by omega)
      refine ⟨?_, ?_, ?_⟩
      · intro h
        rw [hst] at h
        obtain ⟨ha, _⟩ := hopen h
        omega
      · intro h
        rw [hst] at h
        have := hhalf h
        omega
      · intro _
        rw [f1, f2]
        omega
  | succ t =>
    simp only [BreakerEvent.apply]
    refine ⟨?_, ?_, ?_⟩
    · intro h
      cases h
    · intro h
      cases h
    · intro _
      exact hth
  | exec t =>
    simp only [BreakerEvent.time] at hle ⊢
    simp only [BreakerEvent.apply]
    by_cases hclosedst : cb.state = BreakerState.closed
    · rw [can_execute_closed cb t hclosedst]
      refine ⟨?_, ?_, ?_⟩
      · intro h
        rw [h] at hclosedst
        cases hclosedst
      · intro h
        rw [h] at hclosedst
        cases hclosedst
      · intro _
        exact hclosed hclosedst
    · by_cases hopenst : cb.state = BreakerState.opened
      · obtain ⟨hthle, tf, hlastf, htle, hlt⟩ := hopen hopenst
        by_cases helap : cb.timeout ≤ t - tf
        · rw [can_execute_open_elapsed cb t tf hopenst hlastf helap]
          refine ⟨?_, ?_, ?_⟩
          · intro h
            cases h
          · intro _
            exact hthle
          · intro h
            cases h
        · rw [can_execute_open_recent cb t tf hopenst hlastf (not_le.1 helap)]
          refine ⟨?_, ?_, ?_⟩
          · intro _
            exact ⟨hthle, tf, hlastf, le_trans htle hle, not_le.1 helap⟩
          · intro h
            rw [h] at hopenst
            cases hopenst
          · intro h
            rw [h] at hopenst
            cases hopenst
      · have hhalfst : cb.state = BreakerState.half_open := by
          cases hcs : cb.state
          · exact absurd hcs hclosedst
          · exact absurd hcs hopenst
          · rfl
        rw [can_execute_half_open cb t hhalfst]
        refine ⟨?_, ?_, ?_⟩
        · intro h
          rw [h] at hopenst
          exact absurd rfl hopenst
        · intro _
          exact hhalf hhalfst
        · intro h
          rw [h] at hclosedst
          exact absurd rfl hclosedst

theorem run_breaker_inv (evs : List BreakerEvent) :
    ∀ (cb : CircuitBreaker) (t0 : ℚ),
    0 < cb.failure_threshold → 0 < cb.timeout →
    BreakerInv cb t0 →
    List.Chain' (fun a b => a ≤ b) (t0 :: evs.map BreakerEvent.time) →
    BreakerInv (run_breaker cb evs) (lastTimeFrom t0 evs) := by
  induction evs with
  | nil =>
    intro cb t0 _ _ hinv _
    exact hinv
  | cons e rest ih =>
    intro cb t0 hth hto hinv hchain
    rw [List.map_cons, List.chain'_cons] at hchain
    have e1 : run_breaker cb (e :: rest) = run_breaker (BreakerEvent.apply cb e) rest := rfl
    have e2 : lastTimeFrom t0 (e :: rest) = lastTimeFrom e.time rest := rfl
    rw [e1, e2]
    obtain ⟨p1, p2⟩ := apply_preserves_params cb e
    exact ih (BreakerEvent.apply cb e) e.time (by rw [p1]; exact hth)
      (by rw [p2]; exact hto) (breaker_inv_step cb e t0 hth hto hinv hchain.1)
      hchain.2

/-- C5 counterexample: one `record_failure` below the threshold is a
reachable state that is `closed` with a non-zero failure counter, so
"state == closed implies failures == 0" is false of the code. -/
theorem breaker_closed_invariant_counterexample :
    (run_breaker (CircuitBreaker.init 5 60) [BreakerEvent.fail 0]).state =
      BreakerState.closed ∧
    ¬ (run_breaker (CircuitBreaker.init 5 60) [BreakerEvent.fail 0]).failures = 0 := by
  decide

/-- C5 (amended): in every state reachable by a time-monotone sequence of
`record_failure` / `record_success` / `can_execute` calls on a fresh
breaker with positive threshold and timeout, `state == open` implies
`failures >= failure_threshold` (so the threshold was reached) and, at the
time of the last call, `timeout` has not yet elapsed since
`last_failure_time`; `state == half-open` also implies
`failures >= failure_threshold`; and `state == closed` implies
`failures < failure_threshold` — but not `failures == 0`. -/
theorem breaker_reachable_invariant
    (n : ℕ) (τ : ℚ) (evs : List BreakerEvent) (t0 : ℚ)
    (hn : 0 < n) (hτ : 0 < τ)
    (hchain : List.Chain' (fun a b => a ≤ b) (t0 :: evs.map BreakerEvent.time)) :
    BreakerInv (run_breaker (CircuitBreaker.init n τ) evs) (lastTimeFrom t0 evs) :=
  run_breaker_inv evs (CircuitBreaker.init n τ) t0 hn hτ
    (by
      unfold BreakerInv
      refine ⟨fun h => ?_, fun h => ?_, fun _ => hn⟩
      · cases h
      · cases h) hchain

theorem breaker_reachable_invariant_witness :
    (0 : ℕ) < 2 ∧ (0 : ℚ) < 60 ∧
    List.Chain' (fun a b => a ≤ b)
      ((0 : ℚ) :: ([BreakerEvent.fail 1, BreakerEvent.fail 2, BreakerEvent.exec 3,
        BreakerEvent.succ 4].map BreakerEvent.time)) ∧
    BreakerInv
      (run_breaker (CircuitBreaker.init 2 60)
        [BreakerEvent.fail 1, BreakerEvent.fail 2, BreakerEvent.exec 3,
          BreakerEvent.succ 4])
      (lastTimeFrom 0
        [BreakerEvent.fail 1, BreakerEvent.fail 2, BreakerEvent.exec 3,
          BreakerEvent.succ 4]) := by
  have hchain : List.Chain' (fun a b => a ≤ b)
      ((0 : ℚ) :: ([BreakerEvent.fail 1, BreakerEvent.fail 2, BreakerEvent.exec 3,
        BreakerEvent.succ 4].map BreakerEvent.time)) := by
    simp only [List.map_cons, List.map_nil, BreakerEvent.time, List.chain'_cons,
      List.chain'_singleton, and_true]
    norm_num
  exact ⟨by decide, by norm_num, hchain,
    breaker_reachable_invariant 2 60
      [BreakerEvent.fail 1, BreakerEvent.fail 2, BreakerEvent.exec 3,
        BreakerEvent.succ 4] 0 (by decide) (by norm_num) hchain⟩

/-! ### Retry-policy facts -/

theorem retryLoop_counting_ok {α : Type} (m N : ℕ) (beh : ℕ → Except ESError α)
    (v : α) (hN1 : 1 ≤ N) (hNm : N ≤ m + 1)
    (hfail : ∀ i, i + 1 < N → ∃ e, beh i = Except.error e ∧ retryableError e)
    (hok : beh (N - 1) = Except.ok v) :
    ∀ (fuel j : ℕ) (last : Option ESError), fuel + j = m + 1 → j ≤ N - 1 →
    retryLoop m (countingOp beh) fuel j j last = (N, Except.ok v) := by
  intro fuel
  induction fuel with
  | zero =>
    intro j last hfj hj
    omega
  | succ fuel ih =>
    intro j last hfj hj
    rw [retryLoop]
    by_cases hjN : j = N - 1
    · subst hjN
      simp only [countingOp, hok]
      rw [show N - 1 + 1 = N by omega]
    · obtain ⟨e, he, hre⟩ := hfail j (by omega)
      simp only [countingOp, he]
      rcases hre with rfl | rfl | rfl
      · exact ih (j + 1) (some _) (by omega) (by omega)
      · exact ih (j + 1) (some _) (by omega) (by omega)
      · dsimp only
        rw [if_pos ⟨rfl, by omega⟩]
        exact ih (j + 1) (some _) (by omega) (by omega)

theorem retryLoop_counting_exhaust {α : Type} (m : ℕ) (beh : ℕ → Except ESError α)
    (hfail : ∀ i, i ≤ m → ∃ e, beh i = Except.error e ∧ retryableError e) :
    ∀ (fuel j : ℕ) (last : Option ESError), fuel + j = m + 1 →
    (j = 0 ∨ ∃ e, beh (j - 1) = Except.error e ∧ last = some e) →
    ∃ e_last, beh m = Except.error e_last ∧
      retryLoop m (countingOp beh) fuel j j last = (m + 1, Except.error e_last) := by
  intro fuel
  induction fuel with
  | zero =>
    intro j last hfj hlinv
    have hj : j = m + 1 := by omega
    rcases hlinv with hj0 | ⟨e, he, rfl⟩
    · omega
    · rw [show j - 1 = m by omega] at he
      refine ⟨e, he, ?_⟩
      rw [retryLoop, hj]
      rfl
  | succ fuel ih =>
    intro j last hfj hlinv
    have hjm : j ≤ m := by omega
    obtain ⟨e, he, hre⟩ := hfail j hjm
    rw [retryLoop]
    simp only [countingOp, he]
    rcases hre with rfl | rfl | rfl
    · exact ih (j + 1) (some _) (by omega)
        (Or.inr ⟨_, by rw [show j + 1 - 1 = j by omega]; exact he, rfl⟩)
    · exact ih (j + 1) (some _) (by omega)
        (Or.inr ⟨_, by rw [show j + 1 - 1 = j by omega]; exact he, rfl⟩)
    · dsimp only
      by_cases hjm2 : j < m
      · rw [if_pos ⟨rfl, hjm2⟩]
        exact ih (j + 1) (some _) (by omega)
          (Or.inr ⟨_, by rw [show j + 1 - 1 = j by omega]; exact he, rfl⟩)
      · have hj : j = m := by omega
        rw [if_neg (by rintro ⟨_, hc⟩; omega)]
        subst hj
        exact ⟨_, he, rfl⟩

theorem retryLoop_counting_nonretryable {α : Type} (m : ℕ)
    (beh : ℕ → Except ESError α) (e : ESError)
    (h0 : beh 0 = Except.error e) (hnr : ¬ retryableError e) :
    retry_with_backoff m (countingOp beh) 0 = (1, Except.error e) := by
  unfold retry_with_backoff
  rw [retryLoop]
  simp only [countingOp, h0]
  unfold retryableError at hnr
  push_neg at hnr
  obtain ⟨hn1, hn2, hn3⟩ := hnr
  cases e with
  | connection_error => exact absurd rfl hn1
  | connection_timeout => exact absurd rfl hn2
  | api_error code =>
    dsimp only
    rw [if_neg (by rintro ⟨rfl, _⟩; exact hn3 rfl)]
  | transport_error => rfl
  | not_implemented_error => rfl
  | runtime_error => rfl
  | value_error => rfl

/-- C4: for every `max_retries`, a wrapped operation that raises retryable
errors (connection/timeout or a 429 API error) on attempts `1..N-1` and
succeeds on attempt `N ≤ max_retries+1` returns the success value after
exactly `N` invocations; one that always raises retryable errors is
invoked exactly `max_retries+1` times and the last such exception is
re-raised; one that raises a non-retryable error (non-429 API error or any
other exception) is invoked exactly once and the error re-raised at
once. -/
theorem retry_policy_contract :
    (∀ (α : Type) (m N : ℕ) (beh : ℕ → Except ESError α) (v : α),
      1 ≤ N → N ≤ m + 1 →
      (∀ i, i + 1 < N → ∃ e, beh i = Except.error e ∧ retryableError e) →
      beh (N - 1) = Except.ok v →
      retry_with_backoff m (countingOp beh) 0 = (N, Except.ok v)) ∧
    (∀ (α : Type) (m : ℕ) (beh : ℕ → Except ESError α),
      (∀ i, i ≤ m → ∃ e, beh i = Except.error e ∧ retryableError e) →
      ∃ e, beh m = Except.error e ∧
        retry_with_backoff m (countingOp beh) 0 = (m + 1, Except.error e)) ∧
    (∀ (α : Type) (m : ℕ) (beh : ℕ → Except ESError α) (e : ESError),
      beh 0 = Except.error e → ¬ retryableError e →
      retry_with_backoff m (countingOp beh) 0 = (1, Except.error e)) := by
  refine ⟨?_, ?_, ?_⟩
  · intro α m N beh v hN1 hNm hfail hok
    unfold retry_with_backoff
    exact retryLoop_counting_ok m N beh v hN1 hNm hfail hok (m + 1) 0 none
      (by omega) (by omega)
  · intro α m beh hfail
    exact retryLoop_counting_exhaust m beh hfail (m + 1) 0 none (by omega) (Or.inl rfl)
  · intro α m beh e h0 hnr
    exact retryLoop_counting_nonretryable m beh e h0 hnr

theorem retry_policy_contract_witness :
    ((1 : ℕ) ≤ 2 ∧ (2 : ℕ) ≤ 2 + 1 ∧
      (∀ i, i + 1 < 2 → ∃ e, exBeh1 i = Except.error e ∧ retryableError e) ∧
      exBeh1 (2 - 1) = Except.ok 7 ∧
      retry_with_backoff 2 (countingOp exBeh1) 0 = (2, Except.ok 7)) ∧
    ((∀ i, i ≤ 2 → ∃ e, exBeh2 i = Except.error e ∧ retryableError e) ∧
      ∃ e, exBeh2 2 = Except.error e ∧
        retry_with_backoff 2 (countingOp exBeh2) 0 = (2 + 1, Except.error e)) ∧
    (exBeh3 0 = Except.error (ESError.api_error 400) ∧
      ¬ retryableError (ESError.api_error 400) ∧
      retry_with_backoff 2 (countingOp exBeh3) 0 =
        (1, Except.error (ESError.api_error 400))) := by
  have hf1 : ∀ i, i + 1 < 2 → ∃ e, exBeh1 i = Except.error e ∧ retryableError e := by
    intro i hi
    have : i = 0 := by omega
    subst this
    exact ⟨ESError.connection_error, rfl, Or.inl rfl⟩
  have hf2 : ∀ i, i ≤ 2 → ∃ e, exBeh2 i = Except.error e ∧ retryableError e := by
    intro i _
    exact ⟨ESError.connection_timeout, rfl, Or.inr (Or.inl rfl)⟩
  refine ⟨⟨by decide, by decide, hf1, rfl, ?_⟩, ⟨hf2, ?_⟩, rfl, by decide, ?_⟩
  · exact retry_policy_contract.1 ℕ 2 2 exBeh1 7 (by decide) (by decide) hf1 rfl
  · exact retry_policy_contract.2.1 ℕ 2 exBeh2 hf2
  · exact retry_policy_contract.2.2 ℕ 2 exBeh3 (ESError.api_error 400) rfl (by decide)

/-! ### Search-orchestrator facts -/

theorem search_tool_body_conn_fail (mock : Bool)
    (es : ℕ → Except ESError (List SearchResult)) (rrf_k : ℤ) (now : ℚ)
    (s : SysState)
    (hclosed : s.breaker.state = BreakerState.closed)
    (hes : es s.es_calls = Except.error ESError.connection_error) :
    search_tool_body mock SearchType.keyword es rrf_k now s =
      ({ s with body_calls := s.body_calls + 1, es_calls := s.es_calls + 1, breaker := s.breaker.record_failure now },
       Except.error ESError.connection_error) := by
  simp only [search_tool_body]
  rw [can_execute_closed _ now hclosed]
  simp [esRequestStep, hes, recordBreakerFor]

theorem search_tool_body_not_configured (stype : SearchType)
    (es : ℕ → Except ESError (List SearchResult)) (rrf_k : ℤ) (now : ℚ)
    (s : SysState)
    (hstype : stype = SearchType.semantic ∨ stype = SearchType.hybrid)
    (hclosed : s.breaker.state = BreakerState.closed) :
    search_tool_body false stype es rrf_k now s =
      ({ s with body_calls := s.body_calls + 1, breaker := s.breaker.record_failure now },
       Except.error ESError.not_implemented_error) := by
  rcases hstype with rfl | rfl <;>
  · simp only [search_tool_body]
    rw [can_execute_closed _ now hclosed]
    simp [recordBreakerFor]

theorem retryLoop_breaker_param
    (op : SysState → SysState × Except ESError (List SearchResult)) (m : ℕ)
    (hop : ∀ s', ((op s').1).breaker = s'.breaker) :
    ∀ (fuel attempt : ℕ) (s : SysState) (last : Option ESError),
    ((retryLoop m op fuel attempt s last).1).breaker = s.breaker := by
  intro fuel
  induction fuel with
  | zero => intro _ s _; rfl
  | succ fuel ih =>
    intro attempt s last
    rw [retryLoop]
    cases hop2 : op s with
    | mk s1 res =>
      have hb : s1.breaker = s.breaker := by
        have := hop s
        rw [hop2] at this
        exact this
      cases res with
      | ok v => exact hb
      | error e =>
        cases e with
        | connection_error => exact (ih _ s1 _).trans hb
        | connection_timeout => exact (ih _ s1 _).trans hb
        | api_error code =>
          dsimp only
          split
          · exact (ih _ s1 _).trans hb
          · exact hb
        | transport_error => exact hb
        | not_implemented_error => exact hb
        | runtime_error => exact hb
        | value_error => exact hb

theorem retryLoop_conn_step (m : ℕ)
    (op : SysState → SysState × Except ESError (List SearchResult))
    (fuel attempt : ℕ) (s s1 : SysState) (last : Option ESError)
    (h : op s = (s1, Except.error ESError.connection_error)) :
    retryLoop m op (fuel + 1) attempt s last =
      retryLoop m op fuel (attempt + 1) s1 (some ESError.connection_error) := by
  rw [retryLoop, h]

theorem retryLoop_zero (m : ℕ)
    (op : SysState → SysState × Except ESError (List SearchResult))
    (attempt : ℕ) (s : SysState) (e : ESError) :
    retryLoop m op 0 attempt s (some e) = (s, Except.error e) := by
  rw [retryLoop]
  rfl

theorem retry_conn_failures_count
    (m : ℕ) (mock : Bool) (es : ℕ → Except ESError (List SearchResult))
    (rrf_k : ℤ) (now : ℚ)
    (hes : ∀ i, es i = Except.error ESError.connection_error) :
    ∀ (fuel attempt : ℕ) (s : SysState) (last : Option ESError),
    0 < fuel →
    s.breaker.state = BreakerState.closed →
    s.breaker.failures + fuel ≤ s.breaker.failure_threshold →
    (retryLoop m (search_tool_body mock SearchType.keyword es rrf_k now)
      fuel attempt s last).1.breaker.failures = s.breaker.failures + fuel ∧
    (retryLoop m (search_tool_body mock SearchType.keyword es rrf_k now)
      fuel attempt s last).1.body_calls = s.body_calls + fuel ∧
    (retryLoop m (search_tool_body mock SearchType.keyword es rrf_k now)
      fuel attempt s last).2 = Except.error ESError.connection_error := by
  intro fuel
  induction fuel with
  | zero => intro _ _ _ h0 _ _; omega
  | succ fuel ih =>
    intro attempt s last _ hclosed hbound
    obtain ⟨f1, f2, f3, _⟩ := record_failure_fields s.breaker now
    set s1 : SysState := { s with body_calls := s.body_calls + 1, es_calls := s.es_calls + 1, breaker := s.breaker.record_failure now } with hs1
    rw [retryLoop_conn_step m _ fuel attempt s s1 last
      (search_tool_body_conn_fail mock es rrf_k now s hclosed (hes _))]
    have e1 : s1.breaker.failures = s.breaker.failures + 1 := f1
    have e2 : s1.body_calls = s.body_calls + 1 := rfl
    have e3 : s1.breaker.failure_threshold = s.breaker.failure_threshold := f2
    by_cases hf : fuel = 0
    · subst hf
      rw [retryLoop_zero]
      exact ⟨e1, e2, rfl⟩
    · have hlow : s1.breaker.state = BreakerState.closed :=
        (record_failure_state_low s.breaker now (by omega)).trans hclosed
      obtain ⟨g1, g2, g3⟩ := ih (attempt + 1) s1 (some ESError.connection_error)
        (by omega) hlow (by rw [e1, e3]; omega)
      refine ⟨?_, ?_, g3⟩
      · rw [g1, e1]
        omega
      · rw [g2, e2]
        omega

/-- C3 counterexample: with the deployed configuration (max_retries = 3,
breaker threshold 5) and a connection error on every attempt, one
retry-wrapped `search_tool` call records four breaker failures — one per
attempt — not one per exhausted retry sequence. -/
theorem retry_breaker_one_failure_counterexample :
    (SearchClient.search_tool 3 true SearchType.keyword esConnFail 60 0
      exSysState).1.breaker.failures = 4 ∧
    ¬ (SearchClient.search_tool 3 true SearchType.keyword esConnFail 60 0
      exSysState).1.breaker.failures = 1 := by
  decide

/-- C3 (amended): the retry mechanism itself never touches the circuit
breaker — it only threads the wrapped operation's state, so an operation
that leaves the breaker unchanged yields a wrapped call that leaves it
unchanged — but breaker failures are recorded inside the wrapped
`search_tool` body, so when retryable connection errors occur on every
attempt the breaker records exactly `max_retries + 1` failures per
exhausted retry sequence, one per individual attempt, not one per
sequence. -/
theorem retry_breaker_per_attempt :
    (∀ (op : SysState → SysState × Except ESError (List SearchResult)) (m : ℕ)
      (s : SysState),
      (∀ s', ((op s').1).breaker = s'.breaker) →
      ((retry_with_backoff m op s).1).breaker = s.breaker) ∧
    (∀ (m : ℕ) (mock : Bool) (es : ℕ → Except ESError (List SearchResult))
      (rrf_k : ℤ) (now : ℚ) (s : SysState),
      (∀ i, es i = Except.error ESError.connection_error) →
      s.breaker.state = BreakerState.closed →
      s.breaker.failures + (m + 1) ≤ s.breaker.failure_threshold →
      (SearchClient.search_tool m mock SearchType.keyword es rrf_k now
        s).1.breaker.failures = s.breaker.failures + (m + 1) ∧
      (SearchClient.search_tool m mock SearchType.keyword es rrf_k now
        s).1.body_calls = s.body_calls + (m + 1) ∧
      (SearchClient.search_tool m mock SearchType.keyword es rrf_k now s).2 =
        Except.error ESError.connection_error) := by
  constructor
  · intro op m s hop
    exact retryLoop_breaker_param op m hop (m + 1) 0 s none
  · intro m mock es rrf_k now s hes hclosed hbound
    exact retry_conn_failures_count m mock es rrf_k now hes (m + 1) 0 s none
      (by omega) hclosed hbound

theorem retry_breaker_per_attempt_witness :
    ((∀ s' : SysState,
        (((fun s : SysState => (s, (Except.error ESError.runtime_error :
          Except ESError (List SearchResult)))) s').1).breaker = s'.breaker) ∧
      ((retry_with_backoff 2
        (fun s : SysState => (s, (Except.error ESError.runtime_error :
          Except ESError (List SearchResult)))) exSysState).1).breaker =
        exSysState.breaker) ∧
    ((∀ i, esConnFail i = Except.error ESError.connection_error) ∧
      exSysState.breaker.state = BreakerState.closed ∧
      exSysState.breaker.failures + (3 + 1) ≤ exSysState.breaker.failure_threshold ∧
      (SearchClient.search_tool 3 true SearchType.keyword esConnFail 60 0
        exSysState).1.breaker.failures = exSysState.breaker.failures + (3 + 1) ∧
      (SearchClient.search_tool 3 true SearchType.keyword esConnFail 60 0
        exSysState).1.body_calls = exSysState.body_calls + (3 + 1) ∧
      (SearchClient.search_tool 3 true SearchType.keyword esConnFail 60 0
        exSysState).2 = Except.error ESError.connection_error) := by
  have h2 := retry_breaker_per_attempt.2 3 true esConnFail 60 0 exSysState
    (fun _ => rfl) rfl (by decide)
  exact ⟨⟨fun _ => rfl,
    retry_breaker_per_attempt.1 _ 2 exSysState (fun _ => rfl)⟩,
    fun _ => rfl, rfl, by decide, h2.1, h2.2.1, h2.2.2⟩

/-- C6 counterexample: invoking search in semantic mode with the real
(non-mock) embedding backend records a circuit-breaker failure — the
`NotImplementedError` reaches the catch-all handler, which calls
`record_failure` — contradicting "never trips the circuit breaker". -/
theorem not_configured_breaker_counterexample :
    (SearchClient.search_tool 3 false SearchType.semantic esConnFail 60 0
      exSysState).1.breaker.failures = 1 ∧
    ¬ (SearchClient.search_tool 3 false SearchType.semantic esConnFail 60 0
      exSysState).1.breaker.failures = 0 := by
  decide

/-- C6 (amended): with the real (non-mock) embedding backend, semantic or
hybrid search fails with the `NotImplementedError` surfaced synchronously:
the body runs exactly once (never retried) and no index request is issued,
but one circuit-breaker failure IS recorded for it, because the catch-all
`except Exception` handler treats it as an availability signal. -/
theorem not_configured_single_attempt
    (m : ℕ) (stype : SearchType) (es : ℕ → Except ESError (List SearchResult))
    (rrf_k : ℤ) (now : ℚ) (s : SysState)
    (hstype : stype = SearchType.semantic ∨ stype = SearchType.hybrid)
    (hclosed : s.breaker.state = BreakerState.closed) :
    (SearchClient.search_tool m false stype es rrf_k now s).2 =
      Except.error ESError.not_implemented_error ∧
    (SearchClient.search_tool m false stype es rrf_k now s).1.body_calls =
      s.body_calls + 1 ∧
    (SearchClient.search_tool m false stype es rrf_k now s).1.es_calls =
      s.es_calls ∧
    (SearchClient.search_tool m false stype es rrf_k now s).1.breaker.failures =
      s.breaker.failures + 1 := by
  have hbody := search_tool_body_not_configured stype es rrf_k now s hstype hclosed
  unfold SearchClient.search_tool retry_with_backoff
  rw [retryLoop, hbody]
  obtain ⟨f1, _, _, _⟩ := record_failure_fields s.breaker now
  exact ⟨rfl, rfl, rfl, f1⟩

theorem not_configured_single_attempt_witness :
    ((SearchType.semantic = SearchType.semantic ∨
      SearchType.semantic = SearchType.hybrid) ∧
      exSysState.breaker.state = BreakerState.closed) ∧
    ((SearchClient.search_tool 3 false SearchType.semantic esConnFail 60 0
        exSysState).2 = Except.error ESError.not_implemented_error ∧
      (SearchClient.search_tool 3 false SearchType.semantic esConnFail 60 0
        exSysState).1.body_calls = exSysState.body_calls + 1 ∧
      (SearchClient.search_tool 3 false SearchType.semantic esConnFail 60 0
        exSysState).1.es_calls = exSysState.es_calls ∧
      (SearchClient.search_tool 3 false SearchType.semantic esConnFail 60 0
        exSysState).1.breaker.failures = exSysState.breaker.failures + 1) :=
  ⟨⟨Or.inl rfl, rfl⟩,
    not_configured_single_attempt 3 SearchType.semantic esConnFail 60 0
      exSysState (Or.inl rfl) rfl⟩
